import Mathlib

set_option maxHeartbeats 1000000

namespace EnvLocalCtl

/-! Shallow embedding of the core of `env_localctl.py` (local environment
controller under repo-env-contract): the contract parser, the override-layer
canonicalizer, the effective-value merger of `cmd_compile`, the redactor and
the `bws` project-name lookup.  File I/O (YAML loading, subprocess calls,
file writes) is abstracted: loaded documents, load errors and the external
tool's responses are passed in as values, and file writes are recorded as
symbolic actions. -/

/-- Model of a Python/YAML value as produced by the YAML loader and consumed
by `env_localctl.py`.  `none` stands for Python `None`; `bool` is kept
distinct from `int` because the source uses `isinstance(value, bool)` guards
to exclude booleans from the numeric types; the payload of `float` is an
opaque stand-in (floats are only ever inspected structurally by the code we
verify). -/
inductive PVal where
  | none : PVal
  | bool (b : Bool) : PVal
  | int (n : Int) : PVal
  | float (q : Int) : PVal
  | str (s : String) : PVal
  | list (xs : List PVal) : PVal
  | dict (kvs : List (String × PVal)) : PVal

/-- Python truthiness (`bool(x)`): `None`, `False`, zero, the empty string
and empty containers are falsy, everything else is truthy. -/
def pyTruthy : PVal → Bool
  | .none => false
  | .bool b => b
  | .int n => n != 0
  | .float q => q != 0
  | .str s => s ≠ ""
  | .list xs => !xs.isEmpty
  | .dict kvs => !kvs.isEmpty

/-- Lookup in an insertion-ordered string-keyed mapping (Python `dict.get`:
first — and in a real dict, only — binding of the key). -/
def dget {α : Type} : List (String × α) → String → Option α
  | [], _ => Option.none
  | p :: rest, k => if p.1 = k then some p.2 else dget rest k

/-- Python `d[k] = v`: overwrite in place if the key exists (keeping its
position, as Python dicts do), otherwise append at the end. -/
def dset {α : Type} : List (String × α) → String → α → List (String × α)
  | [], k, v => [(k, v)]
  | p :: rest, k, v => if p.1 = k then (k, v) :: rest else p :: dset rest k v

/-- Python `k in d`. -/
def containsKey {α : Type} (d : List (String × α)) (k : String) : Bool :=
  (dget d k).isSome

/-- Python `cfg.get(k)`: absent keys and explicit `null` values both come
back as `None`. -/
def pyGet (d : List (String × PVal)) (k : String) : PVal :=
  (dget d k).getD PVal.none

theorem dget_dset_self {α : Type} (d : List (String × α)) (k : String) (v : α) :
    dget (dset d k v) k = some v := by
  induction d with
  | nil => simp [dget, dset]
  | cons p rest ih =>
    by_cases h : p.1 = k <;> simp [dget, dset, h, ih]

theorem dget_dset_ne {α : Type} (d : List (String × α)) {k k' : String} (v : α)
    (h : k' ≠ k) : dget (dset d k v) k' = dget d k' := by
  have hk : ¬ k = k' := fun he => h he.symm
  induction d with
  | nil => simp [dget, dset, hk]
  | cons p rest ih =>
    by_cases hp : p.1 = k
    · have hp' : ¬ p.1 = k' := fun he => hk (hp.symm.trans he)
      simp [dget, dset, hp, hp', hk]
    · simp only [dset, if_neg hp, dget]
      by_cases hp' : p.1 = k' <;> simp [hp', ih]

theorem mem_keys_dset {α : Type} (d : List (String × α)) (k k' : String) (v : α)
    (h : k' ∈ (dset d k v).map Prod.fst) : k' = k ∨ k' ∈ d.map Prod.fst := by
  induction d with
  | nil => simpa [dset] using h
  | cons p rest ih =>
    by_cases hp : p.1 = k
    · simp only [dset, if_pos hp, List.map_cons, List.mem_cons] at h
      rcases h with h | h
      · exact Or.inl h
      · exact Or.inr (by simp [h])
    · simp only [dset, if_neg hp, List.map_cons, List.mem_cons] at h
      rcases h with h | h
      · exact Or.inr (by simp [h])
      · rcases ih h with h' | h'
        · exact Or.inl h'
        · exact Or.inr (by simp [h'])

theorem dget_eq_none_iff {α : Type} (d : List (String × α)) (k : String) :
    dget d k = Option.none ↔ k ∉ d.map Prod.fst := by
  induction d with
  | nil => simp [dget]
  | cons p rest ih =>
    by_cases hp : p.1 = k
    · simp [dget, hp]
    · have hk : ¬ k = p.1 := fun he => hp he.symm
      simp [dget, hp, ih, hk]

theorem dget_of_mem_nodup {α : Type} {d : List (String × α)} {k : String} {v : α}
    (hmem : (k, v) ∈ d) (hnd : (d.map Prod.fst).Nodup) : dget d k = some v := by
  induction d with
  | nil => cases hmem
  | cons p rest ih =>
    simp only [List.map_cons, List.nodup_cons] at hnd
    rcases List.mem_cons.mp hmem with h | h
    · cases h; simp [dget]
    · have hk : p.1 ≠ k := by
        intro he
        subst he
        have hm := List.mem_map_of_mem Prod.fst h
        exact hnd.1 (by simpa using hm)
      simp [dget, hk, ih h hnd.2]

theorem dset_eq_append {α : Type} {d : List (String × α)} {k : String} (v : α)
    (h : containsKey d k = false) : dset d k v = d ++ [(k, v)] := by
  induction d with
  | nil => simp [dset]
  | cons p rest ih =>
    simp only [containsKey, dget] at h
    by_cases hp : p.1 = k
    · simp [hp] at h
    · simp only [dset, if_neg hp, List.cons_append, List.cons.injEq, true_and]
      exact ih (by simpa [containsKey, hp] using h)

theorem length_dset_new {α : Type} {d : List (String × α)} {k : String} (v : α)
    (h : containsKey d k = false) : (dset d k v).length = d.length + 1 := by
  rw [dset_eq_append v h]; simp

/-! Character-level models of the two anchored regular expressions.  Python's
`re.match` with a pattern ending in `$` accepts the exact shape, and also the
same shape followed by one trailing newline (`$` matches just before a
newline at the end of the string). -/

def isUpperAZ (c : Char) : Bool := 'A' ≤ c && c ≤ 'Z'

def isDigit09 (c : Char) : Bool := '0' ≤ c && c ≤ '9'

def isNameTailChar (c : Char) : Bool := isUpperAZ c || isDigit09 c || c = '_'

/-- Body of `ENV_VAR_RE = ^[A-Z][A-Z0-9_]*$`. -/
def envVarCore : List Char → Bool
  | [] => false
  | c :: cs => isUpperAZ c && cs.all isNameTailChar

/-- Python full-match semantics for an `^...$`-anchored pattern: the body
matches the whole string, or the whole string minus one trailing newline. -/
def pyFullMatch (core : List Char → Bool) (s : String) : Bool :=
  core s.data || (s.data.getLast? = some '\n' && core s.data.dropLast)

/-- `ENV_VAR_RE.match(s)` as a Boolean. -/
def envVarMatch (s : String) : Bool := pyFullMatch envVarCore s

/-- Body of `_DATE_YYYY_MM_DD_RE = ^\d{4}-\d{2}-\d{2}$`. -/
def dateCore : List Char → Bool
  | [a, b, c, d, e, f, g, h, i, j] =>
    isDigit09 a && isDigit09 b && isDigit09 c && isDigit09 d && e = '-' &&
    isDigit09 f && isDigit09 g && h = '-' && isDigit09 i && isDigit09 j
  | _ => false

/-- `_DATE_YYYY_MM_DD_RE.match(s)` as a Boolean. -/
def dateMatch (s : String) : Bool := pyFullMatch dateCore s

/-- Python `str.isspace` characters handled by `str.strip()` (ASCII
whitespace; exotic unicode whitespace is not modelled). -/
def pyIsSpace (c : Char) : Bool :=
  c = ' ' || c = '\t' || c = '\n' || c = '\r' || c = '\x0b' || c = '\x0c'

/-- Python `s.strip()`. -/
def pyStrip (s : String) : String :=
  ⟨((s.data.dropWhile pyIsSpace).reverse.dropWhile pyIsSpace).reverse⟩

/-- Python `str.lower` on one character (ASCII). -/
def pyLowerChar (c : Char) : Char :=
  if 'A' ≤ c && c ≤ 'Z' then Char.ofNat (c.toNat + 32) else c

/-- Python `s.lower()` (ASCII case mapping; exotic unicode folding is not
modelled). -/
def pyLower (s : String) : String := ⟨s.data.map pyLowerChar⟩

/-- Python `s.replace("\n", " ")` — a character-wise map, since the needle
is a single character. -/
def pyNLtoSpace (s : String) : String :=
  ⟨s.data.map (fun c => if c = '\n' then ' ' else c)⟩

/-- Python `repr` of a string as it appears in `f"...{x!r}"` messages
(single quotes; escaping of exotic characters is not modelled). -/
def pyStrRepr (s : String) : String := "\x27" ++ s ++ "\x27"

/-- Python `str(list_of_strings)` as it appears in f-string messages. -/
def pyListRepr (xs : List String) : String :=
  "[" ++ String.intercalate ", " (xs.map pyStrRepr) ++ "]"

/-- The `VarDef` dataclass of `env_localctl.py`: one validated contract
entry.  `default` is a `PVal` with `PVal.none` standing for "no default"
(Python stores `cfg.get("default")`, which is `None` when absent). -/
structure VarDef where
  name : String
  type : String
  required : Bool
  secret : Bool
  secret_ref : Option String
  default : PVal
  enum : Option (List String)
  scopes : Option (List String)
  description : String
  state : String
  deprecate_after : Option String
  replacement : Option String
  rename_from : Option String

/-- `applicable(v, env)`: a variable applies to an environment when it has
no scopes list or the environment is listed. -/
def applicable (v : VarDef) (env : String) : Bool :=
  match v.scopes with
  | Option.none => true
  | some ss => ss.contains env

/-- `ALLOWED_TYPES` from the source. -/
def ALLOWED_TYPES : List String := ["string", "int", "float", "bool", "json", "enum", "url"]

/-- `LIFECYCLE_STATES` from the source. -/
def LIFECYCLE_STATES : List String := ["active", "deprecated", "removed"]

/-- `type_check_value(v, value)` — returns `none` on success and an error
detail string on a type mismatch.  `int` excludes booleans (Python `bool`
is a subclass of `int`), `float` accepts ints, `json` accepts any of the
structural kinds, and `enum` additionally checks membership when the spec
carries a non-empty enum list. -/
def type_check_value (v : VarDef) (value : PVal) : Option String :=
  let t := v.type
  if t = "string" then
    match value with | .str _ => Option.none | _ => some "expected string"
  else if t = "url" then
    match value with | .str _ => Option.none | _ => some "expected url string"
  else if t = "int" then
    match value with | .int _ => Option.none | _ => some "expected int"
  else if t = "float" then
    match value with | .int _ => Option.none | .float _ => Option.none | _ => some "expected float"
  else if t = "bool" then
    match value with | .bool _ => Option.none | _ => some "expected bool"
  else if t = "json" then
    match value with
    | .dict _ => Option.none | .list _ => Option.none | .str _ => Option.none
    | .int _ => Option.none | .float _ => Option.none | .bool _ => Option.none
    | .none => some "expected json-like"
  else if t = "enum" then
    match value with
    | .str s =>
      match v.enum with
      | some es => if !es.isEmpty && !es.contains s then some ("expected one of " ++ pyListRepr es) else Option.none
      | Option.none => Option.none
    | _ => some "expected enum string"
  else Option.none

/-- `redact_effective(vars_def, effective)`: fresh mapping in which every
key whose contract spec is secret gets the fixed marker, every other key
keeps its value. -/
def redact_effective (vars_def : List (String × VarDef)) (effective : List (String × PVal)) :
    List (String × PVal) :=
  effective.foldl (fun out p =>
    match dget vars_def p.1 with
    | some vd => if vd.secret then dset out p.1 (PVal.str "***REDACTED***") else dset out p.1 p.2
    | Option.none => dset out p.1 p.2) []

/-- `_rename_from_map(vars_def)`: dict comprehension
`{v.rename_from: v.name for v in vars_def.values() if v.rename_from}`
(the guard is Python truthiness, so an empty-string `rename_from` is
skipped; later entries overwrite earlier ones). -/
def rename_from_map (vars_def : List (String × VarDef)) : List (String × String) :=
  vars_def.foldl (fun m p =>
    match p.2.rename_from with
    | some rf => if rf = "" then m else dset m rf p.2.name
    | Option.none => m) []

/-- Accumulator of `canonicalize_values_for_env`: canonical output mapping
plus collected error and warning messages. -/
structure CanonAcc where
  out : List (String × PVal)
  errors : List String
  warnings : List String

/-- Loop body of `canonicalize_values_for_env` for one raw key/value pair.
`raw_values` is the whole raw layer (needed for the `new_key in raw_values`
ambiguity check). -/
def canonStep (vars_def : List (String × VarDef)) (rmap : List (String × String))
    (raw_values : List (String × PVal)) (env : String) (source_path : String)
    (acc : CanonAcc) (k : String) (v : PVal) : CanonAcc :=
  match dget vars_def k with
  | some vdef =>
    if !applicable vdef env then
      { acc with errors := acc.errors ++ ["Out-of-scope key in values file " ++ source_path ++ ": " ++ k ++ " (env=" ++ env ++ ")"] }
    else if vdef.state = "removed" then
      { acc with errors := acc.errors ++ ["Removed contract key set in values file " ++ source_path ++ ": " ++ k] }
    else if vdef.secret then
      { acc with errors := acc.errors ++ ["Values file must not include secret variable " ++ k ++ ": " ++ source_path] }
    else
      let ws :=
        if vdef.state = "deprecated" then
          let msg := "Deprecated contract key used in values file " ++ source_path ++ ": " ++ k
          let msg := match vdef.deprecate_after with
            | some da => msg ++ " (deprecate_after=" ++ da ++ ")"
            | Option.none => msg
          let msg := match vdef.replacement with
            | some r => msg ++ " (replacement=" ++ r ++ ")"
            | Option.none => msg
          acc.warnings ++ [msg]
        else acc.warnings
      { out := dset acc.out k v, errors := acc.errors, warnings := ws }
  | Option.none =>
    match dget rmap k with
    | some new_key =>
      if containsKey raw_values new_key then
        { acc with errors := acc.errors ++ ["Conflicting keys in values file " ++ source_path ++ ": both legacy " ++ k ++ " and new " ++ new_key ++ " are set. Remove " ++ k ++ "."] }
      else
        match dget vars_def new_key with
        | Option.none =>
          { acc with errors := acc.errors ++ ["Legacy key " ++ k ++ " maps to unknown contract key " ++ new_key ++ ": " ++ source_path] }
        | some vdef =>
          if !applicable vdef env then
            { acc with errors := acc.errors ++ ["Out-of-scope key in values file " ++ source_path ++ ": " ++ k ++ " -> " ++ new_key ++ " (env=" ++ env ++ ")"] }
          else if vdef.state = "removed" then
            { acc with errors := acc.errors ++ ["Legacy key " ++ k ++ " maps to removed contract key " ++ new_key ++ ": " ++ source_path] }
          else if vdef.secret then
            { acc with errors := acc.errors ++ ["Values file must not include secret variable " ++ k ++ " (renamed to " ++ new_key ++ "): " ++ source_path] }
          else
            { out := dset acc.out new_key v,
              errors := acc.errors,
              warnings := acc.warnings ++ ["Legacy key used in values file " ++ source_path ++ ": " ++ k ++ " -> " ++ new_key ++ " (migration.rename_from)."] }
    | Option.none =>
      { acc with errors := acc.errors ++ ["Unknown key in values file " ++ source_path ++ ": " ++ k] }

/-- `canonicalize_values_for_env(vars_def, raw_values, env=..., source_path=...)`. -/
def canonicalize_values_for_env (vars_def : List (String × VarDef))
    (raw_values : List (String × PVal)) (env : String) (source_path : String) : CanonAcc :=
  let rmap := rename_from_map vars_def
  raw_values.foldl (fun acc p => canonStep vars_def rmap raw_values env source_path acc p.1 p.2)
    ⟨[], [], []⟩

/-- Result of one `_bws_project_id_by_name` call with the process-lifetime
cache made explicit: the returned id or error, the cache afterwards, and
whether the external tool was queried (`_bws_projects` reached). -/
structure BwsLookupResult where
  result : Except String String
  cache : List (String × String)
  queried : Bool

/-- Matching loop of `_bws_project_id_by_name`: ids of projects (dicts with
string `name`/`id` fields) whose trimmed lower-cased name equals the
normalized requested name. -/
def bws_matches (projects : List PVal) (name_norm : String) : List String :=
  projects.foldl (fun acc p =>
    match p with
    | .dict kvs =>
      match dget kvs "name", dget kvs "id" with
      | some (.str pname), some (.str pid) =>
        if pyLower (pyStrip pname) = name_norm then acc ++ [pid] else acc
      | _, _ => acc
    | _ => acc) []

/-- `_bws_project_id_by_name(project_name)` with the global
`_BWS_PROJECT_ID_CACHE` passed explicitly and the result of
`_bws_projects()` (an external subprocess call) supplied as a value. -/
def bws_project_id_by_name (cache : List (String × String))
    (projectsRes : Except String (List PVal)) (project_name : String) : BwsLookupResult :=
  let name_norm := pyLower (pyStrip project_name)
  if name_norm = "" then
    ⟨Except.error "bws project_name must be a non-empty string", cache, false⟩
  else
    match dget cache name_norm with
    | some pid => ⟨Except.ok pid, cache, false⟩
    | Option.none =>
      match projectsRes with
      | Except.error err => ⟨Except.error err, cache, true⟩
      | Except.ok projects =>
        match bws_matches projects name_norm with
        | [] => ⟨Except.error ("bws project not found by name: " ++ pyStrRepr project_name), cache, true⟩
        | [pid] => ⟨Except.ok pid, dset cache name_norm pid, true⟩
        | _ => ⟨Except.error ("bws project name is not unique: " ++ pyStrRepr project_name), cache, true⟩

/-! The effective-value merger of `cmd_compile`, phase by phase. -/

/-- Loop body of the defaults seeding of `cmd_compile`: every applicable,
non-removed, non-secret variable with a non-`None` default enters the
effective map. -/
def seedStep (env : String) (acc : List (String × PVal)) (p : String × VarDef) :
    List (String × PVal) :=
  if !applicable p.2 env then acc
  else if p.2.state = "removed" then acc
  else if p.2.secret then acc
  else match p.2.default with
    | PVal.none => acc
    | d => dset acc p.1 d

/-- Defaults seeding loop of `cmd_compile`. -/
def seedDefaults (vars_def : List (String × VarDef)) (env : String)
    (eff : List (String × PVal)) : List (String × PVal) :=
  vars_def.foldl (seedStep env) eff

/-- Loop body of the overlay of `cmd_compile` for one layer entry: unknown
keys are skipped silently, a type-check failure records an error and skips
the key, a type-valid value overwrites the effective entry. -/
def overlayStep (vars_def : List (String × VarDef)) (src_path : String)
    (acc : List (String × PVal) × List String) (p : String × PVal) :
    List (String × PVal) × List String :=
  match dget vars_def p.1 with
  | Option.none => acc
  | some vdef =>
    match type_check_value vdef p.2 with
    | some t_err =>
      (acc.1, acc.2 ++ ["Type check failed for " ++ p.1 ++ " in " ++ src_path ++ ": " ++ t_err])
    | Option.none => (dset acc.1 p.1 p.2, acc.2)

/-- Overlay loop of `cmd_compile` for one layer. -/
def overlayLayer (vars_def : List (String × VarDef)) (src : List (String × PVal))
    (src_path : String) (acc : List (String × PVal) × List String) :
    List (String × PVal) × List String :=
  src.foldl (overlayStep vars_def src_path) acc

/-- Loop body of the secret-resolution loop of `cmd_compile`.
`secrets_ref` is the loaded per-environment secret-reference table and
`resolve` stands for `resolve_secret` (backend I/O abstracted).  Each
failure adds a "missing" entry; each success stores the resolved string
value.  Python's `if not vdef.secret_ref` also treats an empty-string ref
as missing. -/
def secretsStep (env : String) (secrets_ref : List (String × PVal))
    (resolve : String → PVal → Except String String)
    (acc : List (String × PVal) × List String) (p : String × VarDef) :
    List (String × PVal) × List String :=
  if !applicable p.2 env then acc
  else if p.2.state = "removed" then acc
  else if !p.2.secret then acc
  else
    match p.2.secret_ref with
    | Option.none => (acc.1, acc.2 ++ [p.1 ++ " (missing secret_ref in contract)"])
    | some sref =>
      if sref = "" then (acc.1, acc.2 ++ [p.1 ++ " (missing secret_ref in contract)"])
      else
        match dget secrets_ref sref with
        | Option.none =>
          (acc.1, acc.2 ++ [p.1 ++ " (missing secret ref entry: " ++ sref ++ " in env/secrets/" ++ env ++ ".ref.yaml)"])
        | some ref_cfg =>
          match resolve sref ref_cfg with
          | Except.error err => (acc.1, acc.2 ++ [p.1 ++ " (secret material unavailable: " ++ err ++ ")"])
          | Except.ok val => (dset acc.1 p.1 (PVal.str val), acc.2)

/-- Secret-resolution loop of `cmd_compile`. -/
def secretsPhase (vars_def : List (String × VarDef)) (env : String)
    (secrets_ref : List (String × PVal)) (resolve : String → PVal → Except String String)
    (acc : List (String × PVal) × List String) : List (String × PVal) × List String :=
  vars_def.foldl (secretsStep env secrets_ref resolve) acc

/-- The test `effective[name] in (None, "")` (or the key being absent) from
the required-ness loop. -/
def reqMissingAt (eff : List (String × PVal)) (k : String) : Bool :=
  match dget eff k with
  | Option.none => true
  | some PVal.none => true
  | some (PVal.str s) => s = ""
  | some _ => false

/-- Loop body of the required-ness loop of `cmd_compile`: every applicable,
non-removed, required variable that is absent from the merged mapping or
bound to `None`/the empty string is recorded as missing. -/
def requiredStep (env : String) (eff : List (String × PVal))
    (acc : List String) (p : String × VarDef) : List String :=
  if !applicable p.2 env then acc
  else if p.2.state = "removed" then acc
  else if !p.2.required then acc
  else if reqMissingAt eff p.1 then acc ++ [p.1 ++ " (required but missing)"]
  else acc

/-- Required-ness loop of `cmd_compile`. -/
def requiredMissingPhase (vars_def : List (String × VarDef)) (env : String)
    (eff : List (String × PVal)) : List String :=
  vars_def.foldl (requiredStep env eff) []

/-- Env-selector forcing of `cmd_compile`: if `APP_ENV` is declared,
applicable and not removed, it is force-set to the current environment
name after the missing check. -/
def forceAppEnv (vars_def : List (String × VarDef)) (env : String)
    (eff : List (String × PVal)) : List (String × PVal) :=
  match dget vars_def "APP_ENV" with
  | some vdef =>
    if applicable vdef env && !(vdef.state = "removed") then dset eff "APP_ENV" (PVal.str env)
    else eff
  | Option.none => eff

/-- Result of the merge core of `cmd_compile`: the effective mapping, the
full error list (with the missing entries extended onto it, as the source
does before computing the status), the missing entries, and the status
string. -/
structure MergeResult where
  effective : List (String × PVal)
  errors : List String
  missing : List String
  status : String

/-- Merge core of `cmd_compile` (source lines 976–1040): defaults, the two
canonicalized override layers, secret resolution, required-ness, the
`APP_ENV` forcing, and the PASS/FAIL status.  `pre_errors` carries the
errors accumulated by the earlier steps (mode gate, contract parsing,
layer loading, canonicalization, secret-table loading). -/
def merge_core (vars_def : List (String × VarDef)) (env : String)
    (values local_values : List (String × PVal)) (values_path local_values_path : String)
    (secrets_ref : List (String × PVal)) (resolve : String → PVal → Except String String)
    (pre_errors : List String) : MergeResult :=
  let eff0 := seedDefaults vars_def env []
  let s1 := overlayLayer vars_def values values_path (eff0, pre_errors)
  let s2 := overlayLayer vars_def local_values local_values_path s1
  let s3 := secretsPhase vars_def env secrets_ref resolve (s2.1, [])
  let missing := s3.2 ++ requiredMissingPhase vars_def env s3.1
  let errors := s2.2 ++ missing
  let eff := forceAppEnv vars_def env s3.1
  { effective := eff,
    errors := errors,
    missing := missing,
    status := if errors.isEmpty then "PASS" else "FAIL" }

/-- Symbolic record of the writes `cmd_compile` can perform: the generated
env file, the redacted effective-context JSON, and the markdown report
(written to a file or printed). -/
inductive WAction where
  | envFile : WAction
  | ctxFile : WAction
  | reportOut : WAction
deriving DecidableEq

/-- Outcome of a full `cmd_compile` run: the merge result, the warnings,
and the writes performed, in order. -/
structure CompileOutcome where
  merge : MergeResult
  warnings : List String
  actions : List WAction

/-- `cmd_compile(root, env, out, no_write)` with all file I/O abstracted:
`mode` is the SSOT gate value, `vars_def`/`contract_errors` the
`parse_contract` result, `raw_values`/`raw_local` the loaded override
layers with their load errors `v_err`/`lv_err`, `secrets_ref`/`s_err` the
loaded secret-reference table, and `resolve` the secret resolver.  Writes
become symbolic `WAction`s: the env file and the redacted context are
produced only in the `status == "PASS"` branch, the report always. -/
def cmd_compile_pure (mode : Option String)
    (vars_def : List (String × VarDef)) (contract_errors : List String)
    (raw_values raw_local : List (String × PVal)) (v_err lv_err : List String)
    (secrets_ref : List (String × PVal)) (s_err : List String)
    (root env : String) (resolve : String → PVal → Except String String)
    (no_write : Bool) : CompileOutcome :=
  let gate_errors := if mode = some "repo-env-contract" then [] else
    ["SSOT mode gate failed: docs/project/env-ssot.json must set mode=repo-env-contract"]
  let values_path := root ++ "/env/values/" ++ env ++ ".yaml"
  let local_values_path := root ++ "/env/values/" ++ env ++ ".local.yaml"
  let c1 := canonicalize_values_for_env vars_def raw_values env values_path
  let c2 := canonicalize_values_for_env vars_def raw_local env local_values_path
  let pre_errors := gate_errors ++ contract_errors ++ v_err ++ lv_err ++ c1.errors ++ c2.errors ++ s_err
  let warnings := c1.warnings ++ c2.warnings
  let m := merge_core vars_def env c1.out c2.out values_path local_values_path secrets_ref resolve pre_errors
  let actions :=
    (if m.status = "PASS" && !no_write then [WAction.envFile] else []) ++
    (if m.status = "PASS" then [WAction.ctxFile] else []) ++
    [WAction.reportOut]
  { merge := m, warnings := warnings, actions := actions }

/-! The contract parser (`parse_contract`), modelled per entry.  The file
lookup and YAML parse of `env/contract.yaml` are abstracted: the parser is
given the top-level `variables` mapping.  One Python pitfall is modelled
explicitly: when `description` is a truthy non-string value the source
evaluates `(description or "").replace(...)` on a non-string and raises
`AttributeError`, so parsing crashes; the embedding returns `Option.none`
for that case. -/

/-- Python `repr` of a value, as used in `f"...{x!r}"` error messages
(structured values are abbreviated; only the scalar cases appear in the
properties proved below). -/
def pyRepr : PVal → String
  | .none => "None"
  | .bool true => "True"
  | .bool false => "False"
  | .int n => toString n
  | .float q => toString q
  | .str s => pyStrRepr s
  | .list _ => "[...]"
  | .dict _ => "\x7b...\x7d"

/-- Python `x is True`. -/
def isPyTrue : PVal → Bool
  | .bool true => true
  | _ => false

/-- `sorted(ALLOWED_TYPES)` as rendered in the invalid-type message. -/
def ALLOWED_TYPES_SORTED : List String :=
  ["bool", "enum", "float", "int", "json", "string", "url"]

/-- The lifecycle-state computation of `parse_contract` before validation:
a string `state` with non-empty strip wins, else legacy `deprecated: true`
means `deprecated`, else `active`. -/
def stateCalc (c : List (String × PVal)) : String :=
  let dflt := if isPyTrue (pyGet c "deprecated") then "deprecated" else "active"
  match pyGet c "state" with
  | .str s => if pyStrip s ≠ "" then pyStrip s else dflt
  | _ => dflt

/-- The `(description or "").replace("\n", " ").strip()` coercion applied
when the description is invalid; `Option.none` models the `AttributeError`
raised on a truthy non-string value. -/
def descCoerce (d : PVal) : Option String :=
  if pyTruthy d then
    match d with
    | .str s => some (pyStrip (pyNLtoSpace s))
    | _ => Option.none
  else some ""

/-- The description validity test of `parse_contract`:
`not isinstance(description, str) or not description.strip() or "\n" in description`. -/
def descBadOf : PVal → Bool
  | .str s => pyStrip s = "" || s.data.contains (Char.ofNat 10)
  | _ => true

/-- The description finally stored for an entry: the coercion when the
check fails (possibly crashing), the string itself otherwise. -/
def descResolve (d : PVal) : Option String :=
  if descBadOf d then descCoerce d
  else match d with
    | .str s => some s
    | _ => Option.none

/-- Extract a list of strings (`all(isinstance(x, str) for x in xs)` plus
the collection itself), or fail. -/
def allStrings : List PVal → Option (List String)
  | [] => some []
  | .str s :: rest => (allStrings rest).map (fun ss => s :: ss)
  | _ => Option.none

/-- Field validation of one structurally acceptable contract entry
(`parse_contract` loop body after the name/mapping/type checks): returns
the stored `VarDef` together with this entry's recorded errors, or
`Option.none` when the description coercion raises. -/
def parseEntryFields (name : String) (c : List (String × PVal)) (t : String) :
    Option (Option VarDef × List String) :=
  let state0 := stateCalc c
  let stErrs := if !LIFECYCLE_STATES.contains state0 then
      ["Variable " ++ name ++ ": invalid state " ++ pyStrRepr state0 ++
       " (allowed: " ++ pyListRepr LIFECYCLE_STATES ++ ")"]
    else []
  let state := if !LIFECYCLE_STATES.contains state0 then "active" else state0
  let depErrs := if isPyTrue (pyGet c "deprecated") && state ≠ "deprecated" then
      ["Variable " ++ name ++ ": deprecated=true conflicts with state=" ++ pyStrRepr state]
    else []
  let daRaw := pyGet c "deprecate_after"
  let da1 : Option String × List String :=
    match daRaw with
    | PVal.none => (Option.none, [])
    | .str s =>
      if dateMatch (pyStrip s) then (some (pyStrip s), [])
      else (Option.none, ["Variable " ++ name ++ ": deprecate_after must be YYYY-MM-DD if present"])
    | _ => (Option.none, ["Variable " ++ name ++ ": deprecate_after must be YYYY-MM-DD if present"])
  let da2 : Option String × List String :=
    match daRaw with
    | PVal.none => (da1.1, [])
    | _ =>
      if state ≠ "deprecated" then
        (Option.none, ["Variable " ++ name ++ ": deprecate_after is only valid when state=\x27deprecated\x27"])
      else (da1.1, [])
  let replRaw :=
    match pyGet c "replacement" with
    | PVal.none => pyGet c "replaced_by"
    | r => r
  let rep1 : Option String × List String :=
    match replRaw with
    | PVal.none => (Option.none, [])
    | .str s =>
      if envVarMatch s then (some s, [])
      else (Option.none, ["Variable " ++ name ++ ": replacement must be a valid env var name"])
    | _ => (Option.none, ["Variable " ++ name ++ ": replacement must be a valid env var name"])
  let rep2 : Option String × List String :=
    match replRaw with
    | PVal.none => (rep1.1, [])
    | _ =>
      if state ≠ "deprecated" then
        (Option.none, ["Variable " ++ name ++ ": replacement is only valid when state=\x27deprecated\x27"])
      else (rep1.1, [])
  let mig : Option String × List String :=
    match pyGet c "migration" with
    | PVal.none => (Option.none, [])
    | .dict m =>
      (match pyGet m "rename_from" with
       | PVal.none => (Option.none, [])
       | .str rf =>
         if !envVarMatch rf then
           (Option.none, ["Variable " ++ name ++ ": migration.rename_from must be a valid env var name"])
         else if rf = name then
           (Option.none, ["Variable " ++ name ++ ": migration.rename_from must not equal the variable name"])
         else (some rf, [])
       | _ => (Option.none, ["Variable " ++ name ++ ": migration.rename_from must be a valid env var name"]))
    | _ => (Option.none, ["Variable " ++ name ++ ": migration must be a mapping if present"])
  let required := pyTruthy ((dget c "required").getD (PVal.bool false))
  let secret := pyTruthy ((dget c "secret").getD (PVal.bool false))
  let secret_refRaw := pyGet c "secret_ref"
  let secErrs :=
    if secret then
      (match secret_refRaw with
       | .str s => if pyStrip s = "" then ["Variable " ++ name ++ ": secret variables must set non-empty secret_ref"] else []
       | _ => ["Variable " ++ name ++ ": secret variables must set non-empty secret_ref"]) ++
      (if containsKey c "default" then ["Variable " ++ name ++ ": secret variables must not define a default"] else [])
    else
      (match secret_refRaw with
       | PVal.none => []
       | _ => ["Variable " ++ name ++ ": non-secret variables must not set secret_ref"])
  let dflt := pyGet c "default"
  let enumRes : Option (List String) × List String :=
    if t = "enum" then
      match pyGet c "enum" with
      | .list xs =>
        if xs.isEmpty then
          (Option.none, ["Variable " ++ name ++ ": enum type requires non-empty string list \x27enum\x27"])
        else
          (match allStrings xs with
           | some ss => (some ss, [])
           | Option.none => (Option.none, ["Variable " ++ name ++ ": enum type requires non-empty string list \x27enum\x27"]))
      | _ => (Option.none, ["Variable " ++ name ++ ": enum type requires non-empty string list \x27enum\x27"])
    else (Option.none, [])
  let scopesRes : Option (List String) × List String :=
    match pyGet c "scopes" with
    | PVal.none => (Option.none, [])
    | .list xs =>
      (match allStrings xs with
       | some ss => (some ss, [])
       | Option.none => (Option.none, ["Variable " ++ name ++ ": scopes must be a list of env names"]))
    | _ => (Option.none, ["Variable " ++ name ++ ": scopes must be a list of env names"])
  let descRaw := pyGet c "description"
  let descErrs : List String :=
    if descBadOf descRaw then
      ["Variable " ++ name ++ ": description must be a non-empty single line"]
    else []
  let errsAll := stErrs ++ depErrs ++ da1.2 ++ da2.2 ++ rep1.2 ++ rep2.2 ++ mig.2 ++
    secErrs ++ enumRes.2 ++ scopesRes.2 ++ descErrs
  (descResolve descRaw).map (fun desc =>
    (some
      { name := name, type := t, required := required, secret := secret,
        secret_ref := (match secret_refRaw with | .str s => some s | _ => Option.none),
        default := dflt, enum := enumRes.1, scopes := scopesRes.1,
        description := desc, state := state, deprecate_after := da2.1,
        replacement := rep2.1, rename_from := mig.1 }, errsAll))

/-- One iteration of the `parse_contract` loop: the entry's stored spec (or
`Option.none` in the first component when dropped) and its error messages;
the outer `Option.none` models the description `AttributeError`. -/
def parseEntry (name : String) (cfg : PVal) : Option (Option VarDef × List String) :=
  if !envVarMatch name then
    some (Option.none, ["Invalid env var name in contract: " ++ pyStrRepr name])
  else
    match cfg with
    | .dict c =>
      (match pyGet c "type" with
       | .str t =>
         if ALLOWED_TYPES.contains t then parseEntryFields name c t
         else
           some (Option.none, ["Variable " ++ name ++ ": invalid type " ++ pyStrRepr t ++
             " (allowed: " ++ pyListRepr ALLOWED_TYPES_SORTED ++ ")"])
       | other =>
         some (Option.none, ["Variable " ++ name ++ ": invalid type " ++ pyRepr other ++
           " (allowed: " ++ pyListRepr ALLOWED_TYPES_SORTED ++ ")"]))
    | _ => some (Option.none, ["Variable " ++ name ++ ": definition must be a mapping"])

/-- The main loop of `parse_contract` over the raw `variables` mapping. -/
def parseFold : List (String × PVal) → List (String × VarDef) → List String →
    Option (List (String × VarDef) × List String)
  | [], vars_out, errors => some (vars_out, errors)
  | p :: rest, vars_out, errors =>
    match parseEntry p.1 p.2 with
    | Option.none => Option.none
    | some (Option.none, es) => parseFold rest vars_out (errors ++ es)
    | some (some vd, es) => parseFold rest (dset vars_out p.1 vd) (errors ++ es)

/-- First rename pass of `parse_contract`: build `rename_from_to` and
collect collision errors. -/
def renameFromTo (vars_out : List (String × VarDef)) :
    List (String × String) × List String :=
  vars_out.foldl (fun acc p =>
    match p.2.rename_from with
    | Option.none => acc
    | some old =>
      if old = "" then acc
      else
        match dget acc.1 old with
        | some existing =>
          if existing ≠ p.1 then
            (acc.1, acc.2 ++ ["Contract rename_from collision: " ++ old ++ " -> " ++ existing ++ " and " ++ p.1])
          else (dset acc.1 old p.1, acc.2)
        | Option.none => (dset acc.1 old p.1, acc.2)) ([], [])

/-- Second rename pass of `parse_contract`: a legacy name that still exists
as a non-removed contract entry is a conflict. -/
def renameConflictErrors (vars_out : List (String × VarDef))
    (rft : List (String × String)) : List String :=
  rft.foldl (fun acc p =>
    match dget vars_out p.1 with
    | some old_def =>
      if old_def.state ≠ "removed" then
        acc ++ ["Contract rename_from conflict: " ++ p.2 ++ " declares rename_from=" ++ p.1 ++
          " but " ++ p.1 ++ " exists and is not state=\x27removed\x27"]
      else acc
    | Option.none => acc) []

/-- `parse_contract` on the raw top-level `variables` mapping: per-entry
validation followed by the global rename-graph checks.  `Option.none`
models the description `AttributeError` crash. -/
def parse_contract (raw_vars : List (String × PVal)) :
    Option (List (String × VarDef) × List String) :=
  match parseFold raw_vars [] [] with
  | Option.none => Option.none
  | some (vars_out, errors) =>
    let r := renameFromTo vars_out
    some (vars_out, errors ++ r.2 ++ renameConflictErrors vars_out r.1)

/-- The three structural checks of `parse_contract` that decide whether an
entry is stored at all: valid name, mapping definition, allowed type. -/
def entryStructOk (name : String) (cfg : PVal) : Bool :=
  envVarMatch name &&
  (match cfg with
   | .dict c => (match pyGet c "type" with | .str t => ALLOWED_TYPES.contains t | _ => false)
   | _ => false)

/-! Helper lemmas and the claim theorems. -/

theorem containsKey_append {α : Type} (d1 d2 : List (String × α)) (k : String) :
    containsKey (d1 ++ d2) k = (containsKey d1 k || containsKey d2 k) := by
  induction d1 with
  | nil => simp [containsKey, dget]
  | cons p rest ih =>
    by_cases hp : p.1 = k
    · simp [containsKey, dget, hp]
    · simp only [containsKey, List.cons_append, dget, if_neg hp]
      simpa [containsKey] using ih

/-- Value transformation applied by the redactor at one key. -/
def redactVal (vars_def : List (String × VarDef)) (k : String) (v : PVal) : PVal :=
  match dget vars_def k with
  | some vd => if vd.secret then PVal.str "***REDACTED***" else v
  | Option.none => v

theorem redact_fold_eq (vars_def : List (String × VarDef)) :
    ∀ (eff out : List (String × PVal)),
    (eff.map Prod.fst).Nodup →
    (∀ k, k ∈ eff.map Prod.fst → containsKey out k = false) →
    eff.foldl (fun out p =>
      match dget vars_def p.1 with
      | some vd => if vd.secret then dset out p.1 (PVal.str "***REDACTED***") else dset out p.1 p.2
      | Option.none => dset out p.1 p.2) out
    = out ++ eff.map (fun p => (p.1, redactVal vars_def p.1 p.2)) := by
  intro eff
  induction eff with
  | nil => intro out _ _; simp
  | cons p rest ih =>
    intro out hnd hdisj
    simp only [List.map_cons, List.nodup_cons] at hnd
    have hout : containsKey out p.1 = false := hdisj p.1 (by simp)
    have hstep :
        (match dget vars_def p.1 with
         | some vd => if vd.secret then dset out p.1 (PVal.str "***REDACTED***") else dset out p.1 p.2
         | Option.none => dset out p.1 p.2)
        = out ++ [(p.1, redactVal vars_def p.1 p.2)] := by
      unfold redactVal
      cases hv : dget vars_def p.1 with
      | none => simpa using dset_eq_append p.2 hout
      | some vd =>
        by_cases hs : vd.secret <;>
          simp [hs, dset_eq_append _ hout]
    have hdisj' : ∀ k, k ∈ rest.map Prod.fst →
        containsKey (out ++ [(p.1, redactVal vars_def p.1 p.2)]) k = false := by
      intro k hk
      rw [containsKey_append]
      have h1 : containsKey out k = false := hdisj k (by simp [hk])
      have h2 : containsKey [(p.1, redactVal vars_def p.1 p.2)] k = false := by
        have : p.1 ≠ k := fun he => hnd.1 (he ▸ hk)
        simp [containsKey, dget, this]
      simp [h1, h2]
    calc (p :: rest).foldl _ out
        = rest.foldl _ (out ++ [(p.1, redactVal vars_def p.1 p.2)]) := by
          simp only [List.foldl_cons, hstep]
      _ = (out ++ [(p.1, redactVal vars_def p.1 p.2)]) ++
            rest.map (fun p => (p.1, redactVal vars_def p.1 p.2)) := ih _ hnd.2 hdisj'
      _ = out ++ (p :: rest).map (fun p => (p.1, redactVal vars_def p.1 p.2)) := by simp

theorem redact_effective_eq_map (vars_def : List (String × VarDef))
    (effective : List (String × PVal)) (hnd : (effective.map Prod.fst).Nodup) :
    redact_effective vars_def effective
      = effective.map (fun p => (p.1, redactVal vars_def p.1 p.2)) := by
  have h := redact_fold_eq vars_def effective [] hnd (by intro k _; simp [containsKey, dget])
  simpa [redact_effective] using h

theorem dget_map_pairfun {α β : Type} (g : String → α → β) (l : List (String × α)) (k : String) :
    dget (l.map (fun p => (p.1, g p.1 p.2))) k = (dget l k).map (g k) := by
  induction l with
  | nil => simp [dget]
  | cons p rest ih =>
    by_cases hp : p.1 = k
    · subst hp; simp [dget, ih]
    · simp [dget, hp, ih]

/-- C1: the Redactor (`redact_effective`), on any mapping, keeps exactly the
same keys; every key whose contract spec has `secret=true` is mapped to the
fixed marker `"***REDACTED***"`, and every other key — including keys not
declared in the contract — keeps its original value, so no secret-declared
key ever appears in the output with its concrete value. -/
theorem redact_effective_spec (vars_def : List (String × VarDef))
    (effective : List (String × PVal)) (hnd : (effective.map Prod.fst).Nodup) :
    ((redact_effective vars_def effective).map Prod.fst = effective.map Prod.fst) ∧
    (∀ k vd v, dget vars_def k = some vd → vd.secret = true → dget effective k = some v →
      dget (redact_effective vars_def effective) k = some (PVal.str "***REDACTED***")) ∧
    (∀ k, (∀ vd, dget vars_def k = some vd → vd.secret = false) →
      dget (redact_effective vars_def effective) k = dget effective k) := by
  rw [redact_effective_eq_map vars_def effective hnd]
  refine ⟨by simp, ?_, ?_⟩
  · intro k vd v hvd hs hv
    rw [dget_map_pairfun (redactVal vars_def) effective k, hv]
    simp [redactVal, hvd, hs]
  · intro k hns
    rw [dget_map_pairfun (redactVal vars_def) effective k]
    cases hv : dget effective k with
    | none => simp
    | some v =>
      cases hvd : dget vars_def k with
      | none => simp [redactVal, hvd]
      | some vd => simp [redactVal, hvd, hns vd hvd]

/-- Contract-entry builder for concrete instances used in witnesses and
counterexamples (fields default to an inactive plain variable). -/
def baseVar (n : String) (t : String) : VarDef :=
  { name := n, type := t, required := false, secret := false, secret_ref := Option.none,
    default := PVal.none, enum := Option.none, scopes := Option.none, description := "d",
    state := "active", deprecate_after := Option.none, replacement := Option.none,
    rename_from := Option.none }

/-- Contract used by the C1 witness: one secret variable `API_KEY`. -/
def c1Vars : List (String × VarDef) :=
  [("API_KEY", { baseVar "API_KEY" "string" with secret := true, secret_ref := some "api_key" })]

/-- Effective mapping used by the C1 witness: a secret, and an
undeclared key. -/
def c1Eff : List (String × PVal) :=
  [("API_KEY", PVal.str "hunter2"), ("EXTRA", PVal.int 1)]

theorem redact_effective_spec_witness :
    dget (redact_effective c1Vars c1Eff) "API_KEY" = some (PVal.str "***REDACTED***") ∧
    dget (redact_effective c1Vars c1Eff) "EXTRA" = dget c1Eff "EXTRA" := by
  have h := redact_effective_spec c1Vars c1Eff (by decide)
  refine ⟨h.2.1 "API_KEY" _ (PVal.str "hunter2") rfl rfl rfl, h.2.2 "EXTRA" ?_⟩
  intro vd hvd
  exact Option.noConfusion hvd

/-- Contract of the C5 scenario: `DB_PORT` of type `int`, required, with
default `5432`. -/
def c5Vars : List (String × VarDef) :=
  [("DB_PORT", { baseVar "DB_PORT" "int" with required := true, default := PVal.int 5432 })]

/-- C5 merge: empty project-wide layer, developer-local layer supplying the
string `"5433"` for the int variable. -/
def c5Merge : MergeResult :=
  merge_core c5Vars "dev" [] [("DB_PORT", PVal.str "5433")]
    "env/values/dev.yaml" "env/values/dev.local.yaml" [] (fun _ _ => Except.error "unused") []

/-- C5: a layer value failing the declared type check (string `"5433"` for
int `DB_PORT` with default `5432`) records exactly one type-check error,
the key is skipped so the effective value stays at the default `5432`, no
missing entry is recorded (the required check alone would pass), and the
merge status is `FAIL` because of the recorded error. -/
theorem merge_type_error_keeps_default :
    c5Merge.errors = ["Type check failed for DB_PORT in env/values/dev.local.yaml: expected int"] ∧
    dget c5Merge.effective "DB_PORT" = some (PVal.int 5432) ∧
    c5Merge.missing = [] ∧
    c5Merge.status = "FAIL" :=
  ⟨rfl, rfl, rfl, rfl⟩

/-- Contract used for C2: `B` declares `migration.rename_from: A`, and `A`
is not itself a contract key. -/
def c2Vars : List (String × VarDef) :=
  [("B", { baseVar "B" "string" with rename_from := some "A" })]

/-- Raw layer for the C2 counterexample: both the legacy key `A` and the
new key `B` are set. -/
def c2RawBoth : List (String × PVal) := [("A", PVal.str "x"), ("B", PVal.str "y")]

/-- C2 (counterexample): when the same layer sets both the legacy key `A`
and the current key `B`, canonicalization emits the one conflict error for
`A` but still stores `B`'s own value under `B` (through the ordinary
non-legacy branch), contradicting the claim that it "stores neither A's
value nor B's value in the canonical output". -/
theorem canonicalize_conflict_counterexample :
    (canonicalize_values_for_env c2Vars c2RawBoth "dev" "vals").errors.length = 1 ∧
    dget (canonicalize_values_for_env c2Vars c2RawBoth "dev" "vals").out "B"
      = some (PVal.str "y") :=
  ⟨rfl, rfl⟩

/-- C2 (amended): when spec `B` declares `renameFrom: A`, `A` is not itself
a contract key, `B` is the rename target recorded for `A`, and `B` is in
scope, not removed and not secret, then: a layer setting `A` alone
canonicalizes to `B` bound to `A`'s value with no error and exactly one
(migration) warning; a layer setting both `A` and `B` yields exactly one
(conflict) error, drops `A`'s value, and still stores `B`'s own value
under `B`. -/
theorem canonicalize_rename_spec
    (vars_def : List (String × VarDef)) (A B : String) (vB : VarDef)
    (env source_path : String) (v va vb : PVal)
    (hA : dget vars_def A = Option.none)
    (hmap : dget (rename_from_map vars_def) A = some B)
    (hB : dget vars_def B = some vB)
    (happ : applicable vB env = true)
    (hrem : vB.state ≠ "removed")
    (hsec : vB.secret = false) :
    ((canonicalize_values_for_env vars_def [(A, v)] env source_path).out = [(B, v)] ∧
     (canonicalize_values_for_env vars_def [(A, v)] env source_path).errors = [] ∧
     (canonicalize_values_for_env vars_def [(A, v)] env source_path).warnings.length = 1) ∧
    ((canonicalize_values_for_env vars_def [(A, va), (B, vb)] env source_path).errors.length = 1 ∧
     (canonicalize_values_for_env vars_def [(A, va), (B, vb)] env source_path).out = [(B, vb)]) := by
  have hAB : A ≠ B := by
    intro he
    rw [he, hB] at hA
    exact Option.noConfusion hA
  have hBA : ¬ B = A := fun he => hAB he.symm
  constructor
  · have hck : containsKey [(A, v)] B = false := by
      simp [containsKey, dget, hBA, hAB]
    simp only [canonicalize_values_for_env, List.foldl, canonStep, hA, hmap, hB, hck,
      happ, hrem, hsec]
    simp [dset]
  · have hck : containsKey [(A, va), (B, vb)] B = true := by
      simp [containsKey, dget, hBA, hAB]
    simp only [canonicalize_values_for_env, List.foldl, canonStep, hA, hmap, hck, hB,
      happ, hrem, hsec]
    by_cases hd : vB.state = "deprecated" <;> simp [hd, dset]

/-- C2 (witness): concrete instance of the amended rename behaviour — the
single-key layer `{A: "x"}` canonicalizes to `{B: "x"}` with no error and
one migration warning. -/
theorem canonicalize_rename_spec_witness :
    (canonicalize_values_for_env c2Vars [("A", PVal.str "x")] "dev" "vals").out
      = [("B", PVal.str "x")] ∧
    (canonicalize_values_for_env c2Vars [("A", PVal.str "x")] "dev" "vals").errors = [] ∧
    (canonicalize_values_for_env c2Vars [("A", PVal.str "x")] "dev" "vals").warnings.length = 1 := by
  have h := canonicalize_rename_spec c2Vars "A" "B"
    ({ baseVar "B" "string" with rename_from := some "A" }) "dev" "vals"
    (PVal.str "x") (PVal.str "x") (PVal.str "y") rfl rfl rfl rfl (by decide) rfl
  exact h.1

/-- C9: every key of the canonicalizer's output mapping is the current name
of a contract variable that is in scope for the environment, not secret and
not removed; unknown, out-of-scope, secret and removed keys (whether given
directly or reached via `rename_from`) never appear. -/
theorem canonicalize_out_keys_spec
    (vars_def : List (String × VarDef)) (raw_values : List (String × PVal))
    (env source_path : String) (k : String)
    (hk : k ∈ (canonicalize_values_for_env vars_def raw_values env source_path).out.map Prod.fst) :
    ∃ vd, dget vars_def k = some vd ∧ applicable vd env = true ∧
      vd.state ≠ "removed" ∧ vd.secret = false := by
  set P := fun (k' : String) => ∃ vd, dget vars_def k' = some vd ∧ applicable vd env = true ∧
    vd.state ≠ "removed" ∧ vd.secret = false with hP
  have hstep : ∀ (acc : CanonAcc) (p : String × PVal),
      (∀ k', k' ∈ acc.out.map Prod.fst → P k') →
      (∀ k', k' ∈ (canonStep vars_def (rename_from_map vars_def) raw_values env source_path acc p.1 p.2).out.map Prod.fst → P k') := by
    intro acc p hinv k' hk'
    unfold canonStep at hk'
    split at hk'
    next vdef hv =>
      split at hk'
      next h1 => exact hinv k' hk'
      next h1 =>
        split at hk'
        next h2 => exact hinv k' hk'
        next h2 =>
          split at hk'
          next h3 => exact hinv k' hk'
          next h3 =>
            have hk2 : k' ∈ (dset acc.out p.1 p.2).map Prod.fst := hk'
            rcases mem_keys_dset _ _ _ _ hk2 with he | hmem
            · subst he
              exact ⟨vdef, hv, by simpa using h1, h2, by simpa using h3⟩
            · exact hinv k' hmem
    next hv =>
      split at hk'
      next new_key hm =>
        split at hk'
        next hck => exact hinv k' hk'
        next hck =>
          split at hk'
          next hv2 => exact hinv k' hk'
          next vdef hv2 =>
            split at hk'
            next h1 => exact hinv k' hk'
            next h1 =>
              split at hk'
              next h2 => exact hinv k' hk'
              next h2 =>
                split at hk'
                next h3 => exact hinv k' hk'
                next h3 =>
                  have hk2 : k' ∈ (dset acc.out new_key p.2).map Prod.fst := hk'
                  rcases mem_keys_dset _ _ _ _ hk2 with he | hmem
                  · subst he
                    exact ⟨vdef, hv2, by simpa using h1, h2, by simpa using h3⟩
                  · exact hinv k' hmem
      next hm => exact hinv k' hk'
  have haux : ∀ (l : List (String × PVal)) (acc : CanonAcc),
      (∀ k', k' ∈ acc.out.map Prod.fst → P k') →
      (∀ k', k' ∈ (l.foldl (fun acc p => canonStep vars_def (rename_from_map vars_def) raw_values env source_path acc p.1 p.2) acc).out.map Prod.fst → P k') := by
    intro l
    induction l with
    | nil => intro acc hinv; exact hinv
    | cons p rest ih =>
      intro acc hinv
      exact ih _ (hstep acc p hinv)
  have h := haux raw_values ⟨[], [], []⟩ (by intro k' hk'; simp at hk') k
  exact h (by simpa [canonicalize_values_for_env] using hk)

/-- Contract and layer for the C9 witness. -/
def c9Vars : List (String × VarDef) := [("HOST", baseVar "HOST" "string")]

theorem canonicalize_out_keys_spec_witness :
    ∃ vd, dget c9Vars "HOST" = some vd ∧ applicable vd "dev" = true ∧
      vd.state ≠ "removed" ∧ vd.secret = false :=
  canonicalize_out_keys_spec c9Vars [("HOST", PVal.str "h")] "dev" "vals" "HOST" (by decide)

/-- C7: resolving a `bws` project name is a case-insensitive exact-match
lookup (after trimming) against the external tool's project list: zero
matches is a "not found" error, two or more matches is a "not unique"
error, and a single match is returned and cached under the lower-cased
trimmed name, so a later lookup of the same name is served from the cache
without querying the external tool again. -/
theorem bws_project_id_by_name_spec
    (cache : List (String × String)) (projects : List PVal) (project_name : String)
    (hne : pyLower (pyStrip project_name) ≠ "")
    (hmiss : dget cache (pyLower (pyStrip project_name)) = Option.none) :
    (bws_matches projects (pyLower (pyStrip project_name)) = [] →
      (bws_project_id_by_name cache (Except.ok projects) project_name).result
        = Except.error ("bws project not found by name: " ++ pyStrRepr project_name) ∧
      (bws_project_id_by_name cache (Except.ok projects) project_name).queried = true) ∧
    (∀ ids, bws_matches projects (pyLower (pyStrip project_name)) = ids → 2 ≤ ids.length →
      (bws_project_id_by_name cache (Except.ok projects) project_name).result
        = Except.error ("bws project name is not unique: " ++ pyStrRepr project_name)) ∧
    (∀ pid, bws_matches projects (pyLower (pyStrip project_name)) = [pid] →
      (bws_project_id_by_name cache (Except.ok projects) project_name).result = Except.ok pid ∧
      (bws_project_id_by_name cache (Except.ok projects) project_name).cache
        = dset cache (pyLower (pyStrip project_name)) pid ∧
      (∀ projectsRes2,
        (bws_project_id_by_name
          (bws_project_id_by_name cache (Except.ok projects) project_name).cache
          projectsRes2 project_name).result = Except.ok pid ∧
        (bws_project_id_by_name
          (bws_project_id_by_name cache (Except.ok projects) project_name).cache
          projectsRes2 project_name).queried = false)) := by
  refine ⟨?_, ?_, ?_⟩
  · intro hm
    simp [bws_project_id_by_name, hne, hmiss, hm]
  · intro ids hm hlen
    cases ids with
    | nil => simp at hlen
    | cons p1 rest =>
      cases rest with
      | nil => simp at hlen
      | cons p2 rest2 =>
        simp [bws_project_id_by_name, hne, hmiss, hm]
  · intro pid hm
    have h1 : (bws_project_id_by_name cache (Except.ok projects) project_name).result
        = Except.ok pid := by
      simp [bws_project_id_by_name, hne, hmiss, hm]
    have h2 : (bws_project_id_by_name cache (Except.ok projects) project_name).cache
        = dset cache (pyLower (pyStrip project_name)) pid := by
      simp [bws_project_id_by_name, hne, hmiss, hm]
    refine ⟨h1, h2, ?_⟩
    intro projectsRes2
    rw [h2]
    have hhit : dget (dset cache (pyLower (pyStrip project_name)) pid)
        (pyLower (pyStrip project_name)) = some pid := dget_dset_self _ _ _
    constructor
    · simp [bws_project_id_by_name, hne, hhit]
    · simp [bws_project_id_by_name, hne, hhit]

/-- Projects list for the C7 witness: one project whose padded, mixed-case
name matches `"my proj"` after trimming and lower-casing. -/
def c7Projects : List PVal :=
  [PVal.dict [("name", PVal.str " My Proj "), ("id", PVal.str "id-1")],
   PVal.dict [("name", PVal.str "Other"), ("id", PVal.str "id-2")]]

theorem bws_project_id_by_name_spec_witness :
    (bws_project_id_by_name [] (Except.ok c7Projects) "My Proj").result = Except.ok "id-1" ∧
    (bws_project_id_by_name
      (bws_project_id_by_name [] (Except.ok c7Projects) "My Proj").cache
      (Except.error "tool should not be queried") "my proj ").queried = false := by
  have h := bws_project_id_by_name_spec [] c7Projects "My Proj" (by decide) (by decide)
  have h3 := h.2.2 "id-1" (by decide)
  refine ⟨h3.1, ?_⟩
  have h4 := bws_project_id_by_name_spec [] c7Projects "my proj " (by decide) (by decide)
  -- the cache after the first call holds the normalized name, and the second
  -- lookup normalizes to the same key, so it is a cache hit
  have hc : (bws_project_id_by_name [] (Except.ok c7Projects) "My Proj").cache
      = [("my proj", "id-1")] := by
    rw [h3.2.1]; decide
  rw [hc]
  decide


/-! Lemmas about the merger phases. -/

theorem dget_seedStep_eq (env : String) (k : String) (eff : List (String × PVal))
    (p : String × VarDef)
    (hyp : p.1 = k →
      applicable p.2 env = false ∨ p.2.state = "removed" ∨ p.2.secret = true ∨
        p.2.default = PVal.none) :
    dget (seedStep env eff p) k = dget eff k := by
  unfold seedStep
  by_cases hk : p.1 = k
  · rcases hyp hk with h | h | h | h
    · simp [h]
    · by_cases h1 : applicable p.2 env <;> simp [h1, h]
    · by_cases h1 : applicable p.2 env
      · by_cases h2 : p.2.state = "removed" <;> simp [h1, h2, h]
      · simp [h1]
    · by_cases h1 : applicable p.2 env
      · by_cases h2 : p.2.state = "removed"
        · simp [h1, h2]
        · by_cases h3 : p.2.secret <;> simp [h1, h2, h3, h]
      · simp [h1]
  · by_cases h1 : applicable p.2 env
    · by_cases h2 : p.2.state = "removed"
      · simp [h1, h2]
      · by_cases h3 : p.2.secret
        · simp [h1, h2, h3]
        · cases hd : p.2.default <;>
            simp [h1, h2, h3, dget_dset_ne _ _ (fun he => hk he.symm)]
    · simp [h1]

theorem dget_seedDefaults_eq (env : String) (k : String) :
    ∀ (vars_def : List (String × VarDef)) (eff : List (String × PVal)),
    (∀ p, p ∈ vars_def → p.1 = k →
      applicable p.2 env = false ∨ p.2.state = "removed" ∨ p.2.secret = true ∨
        p.2.default = PVal.none) →
    dget (seedDefaults vars_def env eff) k = dget eff k := by
  intro vars_def
  induction vars_def with
  | nil => intro eff _; rfl
  | cons p rest ih =>
    intro eff hyp
    have h1 : dget (seedDefaults (p :: rest) env eff) k
        = dget (seedDefaults rest env (seedStep env eff p)) k := rfl
    rw [h1, ih _ (fun q hq => hyp q (List.mem_cons_of_mem p hq)),
      dget_seedStep_eq env k eff p (hyp p (by simp))]

theorem dget_overlayStep_ne (vars_def : List (String × VarDef)) (src_path : String)
    (acc : List (String × PVal) × List String) (p : String × PVal) (k : String)
    (hk : k ≠ p.1) :
    dget (overlayStep vars_def src_path acc p).1 k = dget acc.1 k := by
  unfold overlayStep
  cases hv : dget vars_def p.1 with
  | none => simp only [hv]
  | some vdef =>
    cases ht : type_check_value vdef p.2 with
    | some t_err => simp only [hv, ht]
    | none =>
      simp only [hv, ht]
      exact dget_dset_ne _ _ hk

theorem overlayLayer_preserve (vars_def : List (String × VarDef)) (src_path : String)
    (k : String) :
    ∀ (src : List (String × PVal)) (acc : List (String × PVal) × List String),
    k ∉ src.map Prod.fst →
    dget (overlayLayer vars_def src src_path acc).1 k = dget acc.1 k := by
  intro src
  induction src with
  | nil => intro acc _; rfl
  | cons p rest ih =>
    intro acc hk
    simp only [List.map_cons, List.mem_cons, not_or] at hk
    have h1 : dget (overlayLayer vars_def (p :: rest) src_path acc).1 k
        = dget (overlayLayer vars_def rest src_path (overlayStep vars_def src_path acc p)).1 k := rfl
    rw [h1, ih _ hk.2, dget_overlayStep_ne vars_def src_path acc p k hk.1]

theorem overlayLayer_write (vars_def : List (String × VarDef)) (src_path : String) :
    ∀ (src : List (String × PVal)) (acc : List (String × PVal) × List String)
      (k : String) (v : PVal) (vd : VarDef),
    (src.map Prod.fst).Nodup → dget src k = some v → dget vars_def k = some vd →
    type_check_value vd v = Option.none →
    dget (overlayLayer vars_def src src_path acc).1 k = some v := by
  intro src
  induction src with
  | nil => intro acc k v vd _ hget; exact absurd hget (by simp [dget])
  | cons p rest ih =>
    intro acc k v vd hnd hget hvd ht
    simp only [List.map_cons, List.nodup_cons] at hnd
    have hcons : overlayLayer vars_def (p :: rest) src_path acc
        = overlayLayer vars_def rest src_path (overlayStep vars_def src_path acc p) := rfl
    by_cases hk : p.1 = k
    · have hv : v = p.2 := by
        simp [dget, hk] at hget
        exact hget.symm
      subst hv
      subst hk
      rw [hcons, overlayLayer_preserve vars_def src_path p.1 rest _ hnd.1]
      unfold overlayStep
      simp only [hvd, ht]
      exact dget_dset_self _ _ _
    · have hget2 : dget rest k = some v := by
        simpa [dget, hk] using hget
      rw [hcons]
      exact ih _ k v vd hnd.2 hget2 hvd ht

theorem overlayStep_decompose (vars_def : List (String × VarDef)) (src_path : String)
    (eff : List (String × PVal)) (errs : List String) (p : String × PVal) :
    overlayStep vars_def src_path (eff, errs) p
      = ((overlayStep vars_def src_path (eff, []) p).1,
         errs ++ (overlayStep vars_def src_path (eff, []) p).2) := by
  unfold overlayStep
  cases hv : dget vars_def p.1 with
  | none => simp only [hv]; simp
  | some vdef =>
    cases ht : type_check_value vdef p.2 with
    | some t_err => simp only [hv, ht]; simp
    | none => simp only [hv, ht]; simp

theorem overlayLayer_decompose (vars_def : List (String × VarDef)) (src_path : String) :
    ∀ (src : List (String × PVal)) (eff : List (String × PVal)) (errs : List String),
    overlayLayer vars_def src src_path (eff, errs)
      = ((overlayLayer vars_def src src_path (eff, [])).1,
         errs ++ (overlayLayer vars_def src src_path (eff, [])).2) := by
  intro src
  induction src with
  | nil => intro eff errs; simp [overlayLayer]
  | cons p rest ih =>
    intro eff errs
    have hcons : ∀ a, overlayLayer vars_def (p :: rest) src_path a
        = overlayLayer vars_def rest src_path (overlayStep vars_def src_path a p) := fun a => rfl
    rcases hstep : overlayStep vars_def src_path (eff, []) p with ⟨F, G⟩
    have hstep2 : overlayStep vars_def src_path (eff, errs) p = (F, errs ++ G) := by
      rw [overlayStep_decompose, hstep]
    rw [hcons, hcons, hstep, hstep2, ih F (errs ++ G), ih F G]
    simp

theorem dget_secretsStep_eq (env : String) (secrets_ref : List (String × PVal))
    (resolve : String → PVal → Except String String) (k : String)
    (acc : List (String × PVal) × List String) (p : String × VarDef)
    (hyp : p.1 = k → p.2.secret = false) :
    dget (secretsStep env secrets_ref resolve acc p).1 k = dget acc.1 k := by
  unfold secretsStep
  by_cases h1 : applicable p.2 env
  · by_cases h2 : p.2.state = "removed"
    · simp [h1, h2]
    · by_cases h3 : p.2.secret
      · have hk : p.1 ≠ k := fun he => by simp [hyp he] at h3
        simp only [h1, h2, h3]
        cases hr : p.2.secret_ref with
        | none => simp
        | some sref =>
          by_cases h4 : sref = ""
          · simp [h4]
          · cases hg : dget secrets_ref sref with
            | none => simp [h4, hg]
            | some ref_cfg =>
              cases hres : resolve sref ref_cfg with
              | error err => simp [h4, hg, hres]
              | ok val =>
                simp only [h4, hg, hres]
                simp [dget_dset_ne _ _ (fun he => hk he.symm)]
      · simp [h1, h2, h3]
  · simp [h1]

theorem secretsPhase_preserve (env : String) (secrets_ref : List (String × PVal))
    (resolve : String → PVal → Except String String) (k : String) :
    ∀ (vars_def : List (String × VarDef)) (acc : List (String × PVal) × List String),
    (∀ p, p ∈ vars_def → p.1 = k → p.2.secret = false) →
    dget (secretsPhase vars_def env secrets_ref resolve acc).1 k = dget acc.1 k := by
  intro vars_def
  induction vars_def with
  | nil => intro acc _; rfl
  | cons p rest ih =>
    intro acc hyp
    have hcons : secretsPhase (p :: rest) env secrets_ref resolve acc
        = secretsPhase rest env secrets_ref resolve (secretsStep env secrets_ref resolve acc p) := rfl
    rw [hcons, ih _ (fun q hq => hyp q (List.mem_cons_of_mem p hq)),
      dget_secretsStep_eq env secrets_ref resolve k acc p (hyp p (by simp))]

/-- Per-variable missing contribution of the secret-resolution loop. -/
def secContrib (env : String) (secrets_ref : List (String × PVal))
    (resolve : String → PVal → Except String String) (p : String × VarDef) : List String :=
  if !applicable p.2 env then []
  else if p.2.state = "removed" then []
  else if !p.2.secret then []
  else
    match p.2.secret_ref with
    | Option.none => [p.1 ++ " (missing secret_ref in contract)"]
    | some sref =>
      if sref = "" then [p.1 ++ " (missing secret_ref in contract)"]
      else
        match dget secrets_ref sref with
        | Option.none => [p.1 ++ " (missing secret ref entry: " ++ sref ++ " in env/secrets/" ++ env ++ ".ref.yaml)"]
        | some ref_cfg =>
          match resolve sref ref_cfg with
          | Except.error err => [p.1 ++ " (secret material unavailable: " ++ err ++ ")"]
          | Except.ok _ => []

theorem secretsStep_snd_eq (env : String) (secrets_ref : List (String × PVal))
    (resolve : String → PVal → Except String String)
    (acc : List (String × PVal) × List String) (p : String × VarDef) :
    (secretsStep env secrets_ref resolve acc p).2
      = acc.2 ++ secContrib env secrets_ref resolve p := by
  unfold secretsStep secContrib
  by_cases h1 : applicable p.2 env
  · by_cases h2 : p.2.state = "removed"
    · simp [h1, h2]
    · by_cases h3 : p.2.secret
      · simp only [h1, h2, h3]
        cases hr : p.2.secret_ref with
        | none => simp
        | some sref =>
          by_cases h4 : sref = ""
          · simp [h4]
          · cases hg : dget secrets_ref sref with
            | none => simp [h4, hg]
            | some ref_cfg =>
              cases hres : resolve sref ref_cfg with
              | error err => simp [h4, hg, hres]
              | ok val => simp [h4, hg, hres]
      · simp [h1, h2, h3]
  · simp [h1]

theorem secretsPhase_missing_eq (env : String) (secrets_ref : List (String × PVal))
    (resolve : String → PVal → Except String String) :
    ∀ (vars_def : List (String × VarDef)) (acc : List (String × PVal) × List String),
    (secretsPhase vars_def env secrets_ref resolve acc).2
      = acc.2 ++ vars_def.flatMap (secContrib env secrets_ref resolve) := by
  intro vars_def
  induction vars_def with
  | nil => intro acc; simp [secretsPhase]
  | cons p rest ih =>
    intro acc
    have hcons : secretsPhase (p :: rest) env secrets_ref resolve acc
        = secretsPhase rest env secrets_ref resolve (secretsStep env secrets_ref resolve acc p) := rfl
    rw [hcons, ih _, secretsStep_snd_eq]
    simp

/-- Per-variable missing contribution of the required-ness loop. -/
def reqContrib (env : String) (eff : List (String × PVal)) (p : String × VarDef) : List String :=
  if !applicable p.2 env then []
  else if p.2.state = "removed" then []
  else if !p.2.required then []
  else if reqMissingAt eff p.1 then [p.1 ++ " (required but missing)"]
  else []

theorem requiredStep_eq (env : String) (eff : List (String × PVal))
    (acc : List String) (p : String × VarDef) :
    requiredStep env eff acc p = acc ++ reqContrib env eff p := by
  unfold requiredStep reqContrib
  by_cases h1 : applicable p.2 env
  · by_cases h2 : p.2.state = "removed"
    · simp [h1, h2]
    · by_cases h3 : p.2.required
      · by_cases h4 : reqMissingAt eff p.1 <;> simp [h1, h2, h3, h4]
      · simp [h1, h2, h3]
  · simp [h1]

theorem requiredMissingPhase_fold_eq (env : String) (eff : List (String × PVal)) :
    ∀ (vars_def : List (String × VarDef)) (init : List String),
    vars_def.foldl (requiredStep env eff) init = init ++ vars_def.flatMap (reqContrib env eff) := by
  intro vars_def
  induction vars_def with
  | nil => intro init; simp
  | cons p rest ih =>
    intro init
    rw [List.foldl_cons, requiredStep_eq, ih]
    simp

theorem requiredMissingPhase_flatMap (vars_def : List (String × VarDef)) (env : String)
    (eff : List (String × PVal)) :
    requiredMissingPhase vars_def env eff = vars_def.flatMap (reqContrib env eff) := by
  have h := requiredMissingPhase_fold_eq env eff vars_def []
  simpa [requiredMissingPhase] using h

theorem dget_forceAppEnv_ne (vars_def : List (String × VarDef)) (env : String)
    (eff : List (String × PVal)) (k : String) (hk : k ≠ "APP_ENV") :
    dget (forceAppEnv vars_def env eff) k = dget eff k := by
  unfold forceAppEnv
  cases dget vars_def "APP_ENV" with
  | none => rfl
  | some vdef =>
    by_cases h1 : applicable vdef env && !(vdef.state = "removed")
    · simp only [h1, if_true]
      exact dget_dset_ne _ _ hk
    · simp [h1]

theorem mem_of_dget {α : Type} :
    ∀ {d : List (String × α)} {k : String} {v : α}, dget d k = some v → (k, v) ∈ d := by
  intro d
  induction d with
  | nil => intro k v h; exact absurd h (by simp [dget])
  | cons p rest ih =>
    intro k v h
    by_cases hp : p.1 = k
    · simp only [dget, if_pos hp] at h
      have : p = (k, v) := by
        cases p
        cases h
        cases hp
        rfl
      simp [this]
    · simp only [dget, if_neg hp] at h
      exact List.mem_cons_of_mem p (ih h)

/-- Contract used for the C4 counterexample: the distinguished `APP_ENV`
selector declared as an ordinary string variable. -/
def c4Vars : List (String × VarDef) := [("APP_ENV", baseVar "APP_ENV" "string")]

/-- C4 (counterexample): `APP_ENV` is present with different type-valid
string values in both canonicalized layers (`"a"` project-wide, `"b"`
developer-local), yet the effective value is the environment name `"dev"`,
not the developer-local `"b"` — the merger force-sets the environment
selector after the overlay. -/
theorem merge_precedence_counterexample :
    dget (merge_core c4Vars "dev" [("APP_ENV", PVal.str "a")] [("APP_ENV", PVal.str "b")]
      "vp" "lp" [] (fun _ _ => Except.error "") []).effective "APP_ENV"
      = some (PVal.str "dev") ∧
    PVal.str "dev" ≠ PVal.str "b" := by
  refine ⟨rfl, ?_⟩
  intro h
  injection h with h2
  exact absurd h2 (by decide)

/-- C4 (amended): for every contract variable other than the distinguished
`APP_ENV` environment selector that is present with a type-valid value in
both the canonicalized project-wide layer and the canonicalized
developer-local layer, with different values, the merger's effective
mapping assigns the developer-local value (the developer-local layer is
overlaid after and wins).  `APP_ENV` itself is instead force-set to the
environment name. -/
theorem merge_precedence_spec
    (vars_def : List (String × VarDef)) (env : String)
    (values local_values : List (String × PVal)) (vp lp : String)
    (secrets_ref : List (String × PVal)) (resolve : String → PVal → Except String String)
    (pre_errors : List String) (k : String) (vdef : VarDef) (vv lv : PVal)
    (hnd : (vars_def.map Prod.fst).Nodup)
    (hndl : (local_values.map Prod.fst).Nodup)
    (hk : dget vars_def k = some vdef)
    (hsec : vdef.secret = false)
    (_hv : dget values k = some vv) (hl : dget local_values k = some lv)
    (htv : type_check_value vdef vv = Option.none)
    (htl : type_check_value vdef lv = Option.none)
    (_hdiff : vv ≠ lv)
    (happ : k ≠ "APP_ENV") :
    dget (merge_core vars_def env values local_values vp lp secrets_ref resolve
      pre_errors).effective k = some lv := by
  have hsecarg : ∀ p, p ∈ vars_def → p.1 = k → p.2.secret = false := by
    intro p hp he
    have hp2 : (k, p.2) ∈ vars_def := by
      rw [← he]
      simpa using hp
    have := dget_of_mem_nodup hp2 hnd
    rw [hk] at this
    cases this
    exact hsec
  have hwrite : dget (overlayLayer vars_def local_values lp
      (overlayLayer vars_def values vp (seedDefaults vars_def env [], pre_errors))).1 k
      = some lv :=
    overlayLayer_write vars_def lp local_values _ k lv vdef hndl hl hk htl
  show dget (forceAppEnv vars_def env (secretsPhase vars_def env secrets_ref resolve
      ((overlayLayer vars_def local_values lp (overlayLayer vars_def values vp
        (seedDefaults vars_def env [], pre_errors))).1, [])).1) k = some lv
  rw [dget_forceAppEnv_ne _ _ _ _ happ,
    secretsPhase_preserve env secrets_ref resolve k vars_def _ hsecarg]
  exact hwrite

/-- Contract and layers for the C4 witness. -/
def c4wVars : List (String × VarDef) := [("HOST", baseVar "HOST" "string")]

theorem merge_precedence_spec_witness :
    dget (merge_core c4wVars "dev" [("HOST", PVal.str "a")] [("HOST", PVal.str "b")]
      "vp" "lp" [] (fun _ _ => Except.error "") []).effective "HOST"
      = some (PVal.str "b") := by
  exact merge_precedence_spec c4wVars "dev" [("HOST", PVal.str "a")] [("HOST", PVal.str "b")]
    "vp" "lp" [] (fun _ _ => Except.error "") [] "HOST" (baseVar "HOST" "string")
    (PVal.str "a") (PVal.str "b") (by decide) (by decide) rfl rfl rfl rfl rfl rfl
    (fun h => by injection h with h2; exact absurd h2 (by decide)) (by decide)


/-! String-level facts used to count "missing" entries: contract variable
names contain no space character, while every missing-entry message is the
variable name followed by a parenthesized suffix starting with a space, so
the name and the suffix can be recovered from the message. -/

/-- The variable name contains no space character (true of every name
accepted by `ENV_VAR_RE`). -/
def noSpaceName (n : String) : Prop := ∀ c ∈ n.data, c ≠ ' '

theorem head_append_space {l1 l2 : List Char} (h : l1.head? = some ' ') :
    (l1 ++ l2).head? = some ' ' := by
  cases l1 with
  | nil => simp at h
  | cons c cs => simpa using h

theorem no_space_append_inj_list :
    ∀ (n1 n2 t1 t2 : List Char),
    (∀ c ∈ n1, c ≠ ' ') → (∀ c ∈ n2, c ≠ ' ') →
    t1.head? = some ' ' → t2.head? = some ' ' →
    n1 ++ t1 = n2 ++ t2 → n1 = n2 ∧ t1 = t2 := by
  intro n1
  induction n1 with
  | nil =>
    intro n2 t1 t2 _ h2 ht1 _ he
    cases n2 with
    | nil => simpa using he
    | cons c cs =>
      exfalso
      simp only [List.nil_append, List.cons_append] at he
      rw [he] at ht1
      simp only [List.head?_cons, Option.some.injEq] at ht1
      exact h2 c (by simp) ht1
  | cons c1 cs1 ih =>
    intro n2 t1 t2 h1 h2 ht1 ht2 he
    cases n2 with
    | nil =>
      exfalso
      simp only [List.cons_append, List.nil_append] at he
      rw [← he] at ht2
      simp only [List.head?_cons, Option.some.injEq] at ht2
      exact h1 c1 (by simp) ht2
    | cons c2 cs2 =>
      simp only [List.cons_append, List.cons.injEq] at he
      rcases he with ⟨hc, he2⟩
      rcases ih cs2 t1 t2 (fun c hc' => h1 c (by simp [hc'])) (fun c hc' => h2 c (by simp [hc']))
        ht1 ht2 he2 with ⟨e1, e2⟩
      exact ⟨by rw [hc, e1], e2⟩

theorem no_space_msg_inj {n1 n2 t1 t2 : String}
    (h1 : noSpaceName n1) (h2 : noSpaceName n2)
    (ht1 : t1.data.head? = some ' ') (ht2 : t2.data.head? = some ' ')
    (he : n1 ++ t1 = n2 ++ t2) : n1 = n2 ∧ t1 = t2 := by
  have hd : n1.data ++ t1.data = n2.data ++ t2.data := by
    simpa [String.data_append] using congrArg String.data he
  rcases no_space_append_inj_list n1.data n2.data t1.data t2.data h1 h2 ht1 ht2 hd with ⟨e1, e2⟩
  exact ⟨String.ext e1, String.ext e2⟩

theorem sec_msg1_ne {n name : String} (hn : noSpaceName n) (hname : noSpaceName name) :
    n ++ " (missing secret_ref in contract)" ≠ name ++ " (required but missing)" := by
  intro he
  rcases no_space_msg_inj hn hname (by decide) (by decide) he with ⟨_, e2⟩
  exact absurd e2 (by decide)

theorem sec_msg2_ne {n name : String} (sref env : String)
    (hn : noSpaceName n) (hname : noSpaceName name) :
    n ++ " (missing secret ref entry: " ++ sref ++ " in env/secrets/" ++ env ++ ".ref.yaml)"
      ≠ name ++ " (required but missing)" := by
  intro he
  have hd : n.data ++ (" (missing secret ref entry: ".data ++ (sref.data ++
      (" in env/secrets/".data ++ (env.data ++ ".ref.yaml)".data))))
      = name.data ++ " (required but missing)".data := by
    simpa [String.data_append, List.append_assoc] using congrArg String.data he
  rcases no_space_append_inj_list n.data name.data _ _ hn hname
    (head_append_space (by decide)) (by decide) hd with ⟨_, e2⟩
  have hlen := congrArg List.length e2
  simp only [List.length_append] at hlen
  rw [(by decide : (" (missing secret ref entry: ".data).length = 28),
      (by decide : (" in env/secrets/".data).length = 16),
      (by decide : ((".ref.yaml)" : String).data).length = 10),
      (by decide : ((" (required but missing)" : String).data).length = 23)] at hlen
  omega

theorem sec_msg3_ne {n name : String} (err : String)
    (hn : noSpaceName n) (hname : noSpaceName name) :
    n ++ " (secret material unavailable: " ++ err ++ ")"
      ≠ name ++ " (required but missing)" := by
  intro he
  have hd : n.data ++ (" (secret material unavailable: ".data ++ (err.data ++ (")" : String).data))
      = name.data ++ " (required but missing)".data := by
    simpa [String.data_append, List.append_assoc] using congrArg String.data he
  rcases no_space_append_inj_list n.data name.data _ _ hn hname
    (head_append_space (by decide)) (by decide) hd with ⟨_, e2⟩
  have hlen := congrArg List.length e2
  simp only [List.length_append] at hlen
  rw [(by decide : (" (secret material unavailable: ".data).length = 31),
      (by decide : (((")") : String).data).length = 1),
      (by decide : ((" (required but missing)" : String).data).length = 23)] at hlen
  omega

theorem req_msg_ne {n name : String} (hn : noSpaceName n) (hname : noSpaceName name)
    (hne : n ≠ name) :
    n ++ " (required but missing)" ≠ name ++ " (required but missing)" := by
  intro he
  rcases no_space_msg_inj hn hname (by decide) (by decide) he with ⟨e1, _⟩
  exact hne e1

theorem mem_secContrib_shape {env : String} {secrets_ref : List (String × PVal)}
    {resolve : String → PVal → Except String String} {p : String × VarDef} {m : String}
    (hm : m ∈ secContrib env secrets_ref resolve p) :
    m = p.1 ++ " (missing secret_ref in contract)" ∨
    (∃ sref, m = p.1 ++ " (missing secret ref entry: " ++ sref ++ " in env/secrets/" ++ env ++ ".ref.yaml)") ∨
    (∃ err, m = p.1 ++ " (secret material unavailable: " ++ err ++ ")") := by
  unfold secContrib at hm
  split at hm
  · cases hm
  · split at hm
    · cases hm
    · split at hm
      · cases hm
      · split at hm
        · exact Or.inl (List.eq_of_mem_singleton hm)
        · split at hm
          · exact Or.inl (List.eq_of_mem_singleton hm)
          · split at hm
            · exact Or.inr (Or.inl ⟨_, List.eq_of_mem_singleton hm⟩)
            · split at hm
              · exact Or.inr (Or.inr ⟨_, List.eq_of_mem_singleton hm⟩)
              · cases hm

theorem count_secContrib_zero (env : String) (secrets_ref : List (String × PVal))
    (resolve : String → PVal → Except String String) (name : String)
    (hname : noSpaceName name) (p : String × VarDef) (hp : noSpaceName p.1) :
    (secContrib env secrets_ref resolve p).count (name ++ " (required but missing)") = 0 := by
  apply List.count_eq_zero.mpr
  intro hmem
  rcases mem_secContrib_shape hmem with h | ⟨sref, h⟩ | ⟨err, h⟩
  · exact sec_msg1_ne hp hname h.symm
  · exact sec_msg2_ne sref env hp hname h.symm
  · exact sec_msg3_ne err hp hname h.symm

theorem count_secContrib_flatMap_zero (env : String) (secrets_ref : List (String × PVal))
    (resolve : String → PVal → Except String String) (name : String)
    (hname : noSpaceName name) :
    ∀ vars_def : List (String × VarDef), (∀ p ∈ vars_def, noSpaceName p.1) →
    (vars_def.flatMap (secContrib env secrets_ref resolve)).count
      (name ++ " (required but missing)") = 0 := by
  intro vars_def
  induction vars_def with
  | nil => intro _; rfl
  | cons p rest ih =>
    intro hps
    rw [List.flatMap_cons, List.count_append,
      count_secContrib_zero env secrets_ref resolve name hname p (hps p (by simp)),
      ih (fun q hq => hps q (List.mem_cons_of_mem p hq))]

theorem mem_reqContrib_shape {env : String} {eff : List (String × PVal)}
    {p : String × VarDef} {m : String} (hm : m ∈ reqContrib env eff p) :
    m = p.1 ++ " (required but missing)" := by
  unfold reqContrib at hm
  split at hm
  · cases hm
  · split at hm
    · cases hm
    · split at hm
      · cases hm
      · split at hm
        · exact List.eq_of_mem_singleton hm
        · cases hm

theorem count_reqContrib_zero (env : String) (eff : List (String × PVal)) (name : String)
    (hname : noSpaceName name) (p : String × VarDef) (hp : noSpaceName p.1)
    (hne : p.1 ≠ name) :
    (reqContrib env eff p).count (name ++ " (required but missing)") = 0 := by
  apply List.count_eq_zero.mpr
  intro hmem
  exact req_msg_ne hp hname hne (mem_reqContrib_shape hmem).symm

theorem count_reqContrib_flatMap_zero (env : String) (eff : List (String × PVal))
    (name : String) (hname : noSpaceName name) :
    ∀ vars_def : List (String × VarDef),
    (∀ p ∈ vars_def, noSpaceName p.1 ∧ p.1 ≠ name) →
    (vars_def.flatMap (reqContrib env eff)).count (name ++ " (required but missing)") = 0 := by
  intro vars_def
  induction vars_def with
  | nil => intro _; rfl
  | cons p rest ih =>
    intro hps
    rw [List.flatMap_cons, List.count_append,
      count_reqContrib_zero env eff name hname p (hps p (by simp)).1 (hps p (by simp)).2,
      ih (fun q hq => hps q (List.mem_cons_of_mem p hq))]

theorem count_reqContrib_flatMap_one (env : String) (eff : List (String × PVal))
    (name : String) (vdef : VarDef) (hname : noSpaceName name)
    (happ : applicable vdef env = true) (hrem : vdef.state ≠ "removed")
    (hreq : vdef.required = true) (hmiss : reqMissingAt eff name = true) :
    ∀ vars_def : List (String × VarDef),
    (vars_def.map Prod.fst).Nodup → (∀ p ∈ vars_def, noSpaceName p.1) →
    (name, vdef) ∈ vars_def →
    (vars_def.flatMap (reqContrib env eff)).count (name ++ " (required but missing)") = 1 := by
  intro vars_def
  induction vars_def with
  | nil => intro _ _ hmem; cases hmem
  | cons p rest ih =>
    intro hnd hps hmem
    simp only [List.map_cons, List.nodup_cons] at hnd
    rw [List.flatMap_cons, List.count_append]
    rcases List.mem_cons.mp hmem with he | hmem2
    · have hp1 : p.1 = name := by rw [← he]
      have hrest0 : (rest.flatMap (reqContrib env eff)).count
          (name ++ " (required but missing)") = 0 := by
        apply count_reqContrib_flatMap_zero env eff name hname rest
        intro q hq
        refine ⟨hps q (List.mem_cons_of_mem p hq), ?_⟩
        intro hqe
        apply hnd.1
        rw [hp1, ← hqe]
        exact List.mem_map_of_mem Prod.fst hq
      have hcontrib : (reqContrib env eff p).count (name ++ " (required but missing)") = 1 := by
        rw [← he]
        unfold reqContrib
        simp [happ, hrem, hreq, hmiss]
      rw [hcontrib, hrest0]
    · have hp1ne : p.1 ≠ name := by
        intro he2
        apply hnd.1
        rw [he2]
        exact List.mem_map_of_mem Prod.fst hmem2
      rw [count_reqContrib_zero env eff name hname p (hps p (by simp)) hp1ne,
        ih hnd.2 (fun q hq => hps q (List.mem_cons_of_mem p hq)) hmem2]

/-- The `missing` component of `merge_core`, spelled out. -/
theorem merge_core_missing_def (vars_def : List (String × VarDef)) (env : String)
    (values local_values : List (String × PVal)) (vp lp : String)
    (secrets_ref : List (String × PVal)) (resolve : String → PVal → Except String String)
    (pre_errors : List String) :
    (merge_core vars_def env values local_values vp lp secrets_ref resolve pre_errors).missing
      = (secretsPhase vars_def env secrets_ref resolve
          ((overlayLayer vars_def local_values lp (overlayLayer vars_def values vp
            (seedDefaults vars_def env [], pre_errors))).1, [])).2
        ++ requiredMissingPhase vars_def env
          (secretsPhase vars_def env secrets_ref resolve
            ((overlayLayer vars_def local_values lp (overlayLayer vars_def values vp
              (seedDefaults vars_def env [], pre_errors))).1, [])).1 := rfl

/-- The `errors` component of `merge_core`, spelled out. -/
theorem merge_core_errors_def (vars_def : List (String × VarDef)) (env : String)
    (values local_values : List (String × PVal)) (vp lp : String)
    (secrets_ref : List (String × PVal)) (resolve : String → PVal → Except String String)
    (pre_errors : List String) :
    (merge_core vars_def env values local_values vp lp secrets_ref resolve pre_errors).errors
      = (overlayLayer vars_def local_values lp (overlayLayer vars_def values vp
          (seedDefaults vars_def env [], pre_errors))).2
        ++ (merge_core vars_def env values local_values vp lp secrets_ref resolve
            pre_errors).missing := rfl

/-- The `status` component of `merge_core`, spelled out. -/
theorem merge_core_status_def (vars_def : List (String × VarDef)) (env : String)
    (values local_values : List (String × PVal)) (vp lp : String)
    (secrets_ref : List (String × PVal)) (resolve : String → PVal → Except String String)
    (pre_errors : List String) :
    (merge_core vars_def env values local_values vp lp secrets_ref resolve pre_errors).status
      = if (merge_core vars_def env values local_values vp lp secrets_ref resolve
          pre_errors).errors.isEmpty then "PASS" else "FAIL" := rfl

theorem merge_status_fail_of_missing_ne (vars_def : List (String × VarDef)) (env : String)
    (values local_values : List (String × PVal)) (vp lp : String)
    (secrets_ref : List (String × PVal)) (resolve : String → PVal → Except String String)
    (pre_errors : List String)
    (hne : (merge_core vars_def env values local_values vp lp secrets_ref resolve
      pre_errors).missing ≠ []) :
    (merge_core vars_def env values local_values vp lp secrets_ref resolve
      pre_errors).status = "FAIL" := by
  rw [merge_core_status_def, merge_core_errors_def]
  by_cases hbe : ((overlayLayer vars_def local_values lp (overlayLayer vars_def values vp
      (seedDefaults vars_def env [], pre_errors))).2
      ++ (merge_core vars_def env values local_values vp lp secrets_ref resolve
          pre_errors).missing).isEmpty
  · exfalso
    exact hne (List.append_eq_nil.mp (List.isEmpty_iff.mp hbe)).2
  · simp [hbe]


theorem merge_core_missing_flatMap (vars_def : List (String × VarDef)) (env : String)
    (values local_values : List (String × PVal)) (vp lp : String)
    (secrets_ref : List (String × PVal)) (resolve : String → PVal → Except String String)
    (pre_errors : List String) :
    (merge_core vars_def env values local_values vp lp secrets_ref resolve pre_errors).missing
      = vars_def.flatMap (secContrib env secrets_ref resolve)
        ++ vars_def.flatMap (reqContrib env
            (secretsPhase vars_def env secrets_ref resolve
              ((overlayLayer vars_def local_values lp (overlayLayer vars_def values vp
                (seedDefaults vars_def env [], pre_errors))).1, [])).1) := by
  rw [merge_core_missing_def, secretsPhase_missing_eq, requiredMissingPhase_flatMap]
  simp

/-- C6: for every in-scope, non-removed variable with `required=true` and
`secret=false`, if it has no default and receives no value from either
override layer (first conjunct), or its developer-local layer value is the
empty string (second conjunct, for a string-typed variable), the merge
records exactly one missing entry naming that variable and the merge
status is `FAIL`. -/
theorem merge_required_missing_spec
    (vars_def : List (String × VarDef)) (env : String)
    (values local_values : List (String × PVal)) (vp lp : String)
    (secrets_ref : List (String × PVal)) (resolve : String → PVal → Except String String)
    (pre_errors : List String) (name : String) (vdef : VarDef)
    (hnd : (vars_def.map Prod.fst).Nodup)
    (hnames : ∀ p ∈ vars_def, noSpaceName p.1)
    (hk : dget vars_def name = some vdef)
    (happ : applicable vdef env = true) (hrem : vdef.state ≠ "removed")
    (hreq : vdef.required = true) (hsec : vdef.secret = false) :
    (vdef.default = PVal.none → dget values name = Option.none →
      dget local_values name = Option.none →
      (merge_core vars_def env values local_values vp lp secrets_ref resolve
        pre_errors).missing.count (name ++ " (required but missing)") = 1 ∧
      (merge_core vars_def env values local_values vp lp secrets_ref resolve
        pre_errors).status = "FAIL") ∧
    (vdef.type = "string" → (local_values.map Prod.fst).Nodup →
      dget local_values name = some (PVal.str "") →
      (merge_core vars_def env values local_values vp lp secrets_ref resolve
        pre_errors).missing.count (name ++ " (required but missing)") = 1 ∧
      (merge_core vars_def env values local_values vp lp secrets_ref resolve
        pre_errors).status = "FAIL") := by
  have hname : noSpaceName name := hnames (name, vdef) (mem_of_dget hk)
  have hsecarg : ∀ p, p ∈ vars_def → p.1 = name → p.2.secret = false := by
    intro p hp he
    have hp2 : (name, p.2) ∈ vars_def := by
      rw [← he]
      simpa using hp
    have h2 := dget_of_mem_nodup hp2 hnd
    rw [hk] at h2
    cases h2
    exact hsec
  have main : reqMissingAt (secretsPhase vars_def env secrets_ref resolve
        ((overlayLayer vars_def local_values lp (overlayLayer vars_def values vp
          (seedDefaults vars_def env [], pre_errors))).1, [])).1 name = true →
      (merge_core vars_def env values local_values vp lp secrets_ref resolve
        pre_errors).missing.count (name ++ " (required but missing)") = 1 ∧
      (merge_core vars_def env values local_values vp lp secrets_ref resolve
        pre_errors).status = "FAIL" := by
    intro hra
    have hcount : (merge_core vars_def env values local_values vp lp secrets_ref resolve
        pre_errors).missing.count (name ++ " (required but missing)") = 1 := by
      rw [merge_core_missing_flatMap, List.count_append,
        count_secContrib_flatMap_zero env secrets_ref resolve name hname vars_def hnames,
        count_reqContrib_flatMap_one env _ name vdef hname happ hrem hreq hra vars_def
          hnd hnames (mem_of_dget hk)]
    refine ⟨hcount, ?_⟩
    apply merge_status_fail_of_missing_ne
    intro h0
    rw [h0] at hcount
    simp at hcount
  constructor
  · intro hdef hv hl
    apply main
    have hseed : ∀ p, p ∈ vars_def → p.1 = name →
        applicable p.2 env = false ∨ p.2.state = "removed" ∨ p.2.secret = true ∨
          p.2.default = PVal.none := by
      intro p hp he
      have hp2 : (name, p.2) ∈ vars_def := by
        rw [← he]
        simpa using hp
      have h2 := dget_of_mem_nodup hp2 hnd
      rw [hk] at h2
      cases h2
      exact Or.inr (Or.inr (Or.inr hdef))
    have hA : dget (secretsPhase vars_def env secrets_ref resolve
        ((overlayLayer vars_def local_values lp (overlayLayer vars_def values vp
          (seedDefaults vars_def env [], pre_errors))).1, [])).1 name = Option.none := by
      rw [secretsPhase_preserve env secrets_ref resolve name vars_def _ hsecarg]
      rw [overlayLayer_preserve vars_def lp name local_values _
        ((dget_eq_none_iff local_values name).mp hl)]
      rw [overlayLayer_preserve vars_def vp name values _
        ((dget_eq_none_iff values name).mp hv)]
      show dget (seedDefaults vars_def env []) name = Option.none
      rw [dget_seedDefaults_eq env name vars_def [] hseed]
      rfl
    unfold reqMissingAt
    rw [hA]
  · intro htype hndl hl
    apply main
    have hB : dget (secretsPhase vars_def env secrets_ref resolve
        ((overlayLayer vars_def local_values lp (overlayLayer vars_def values vp
          (seedDefaults vars_def env [], pre_errors))).1, [])).1 name
        = some (PVal.str "") := by
      rw [secretsPhase_preserve env secrets_ref resolve name vars_def _ hsecarg]
      exact overlayLayer_write vars_def lp local_values _ name (PVal.str "") vdef hndl hl hk
        (by simp [type_check_value, htype])
    unfold reqMissingAt
    rw [hB]
    rfl

/-- Contract for the C6 witness: one required, non-secret string variable
with no default, absent from both (empty) layers. -/
def c6Vars : List (String × VarDef) :=
  [("API_URL", { baseVar "API_URL" "string" with required := true })]

theorem merge_required_missing_spec_witness :
    (merge_core c6Vars "dev" [] [] "vp" "lp" [] (fun _ _ => Except.error "") []).missing.count
      ("API_URL" ++ " (required but missing)") = 1 ∧
    (merge_core c6Vars "dev" [] [] "vp" "lp" [] (fun _ _ => Except.error "") []).status
      = "FAIL" := by
  have h := merge_required_missing_spec c6Vars "dev" [] [] "vp" "lp" []
    (fun _ _ => Except.error "") [] "API_URL"
    ({ baseVar "API_URL" "string" with required := true })
    (by decide)
    (by
      intro p hp
      rcases List.mem_singleton.mp hp with rfl
      show ∀ c ∈ ("API_URL" : String).data, c ≠ ' '
      decide)
    rfl rfl (by decide) rfl rfl
  exact h.1 rfl rfl rfl


/-- Errors newly recorded by the two overlay passes of the merge (with an
empty starting error list). -/
def merge_overlay_errors (vars_def : List (String × VarDef)) (env : String)
    (values local_values : List (String × PVal)) (vp lp : String) : List String :=
  (overlayLayer vars_def local_values lp
    (overlayLayer vars_def values vp (seedDefaults vars_def env [], []))).2

theorem merge_core_errors_decompose (vars_def : List (String × VarDef)) (env : String)
    (values local_values : List (String × PVal)) (vp lp : String)
    (secrets_ref : List (String × PVal)) (resolve : String → PVal → Except String String)
    (pre_errors : List String) :
    (merge_core vars_def env values local_values vp lp secrets_ref resolve pre_errors).errors
      = pre_errors ++ merge_overlay_errors vars_def env values local_values vp lp
        ++ (merge_core vars_def env values local_values vp lp secrets_ref resolve
            pre_errors).missing := by
  rw [merge_core_errors_def]
  rcases hT : overlayLayer vars_def values vp (seedDefaults vars_def env [], []) with ⟨T1, E1⟩
  have h1 : overlayLayer vars_def values vp (seedDefaults vars_def env [], pre_errors)
      = (T1, pre_errors ++ E1) := by
    rw [overlayLayer_decompose, hT]
  have h3 : overlayLayer vars_def local_values lp (T1, E1)
      = ((overlayLayer vars_def local_values lp (T1, [])).1,
         E1 ++ (overlayLayer vars_def local_values lp (T1, [])).2) :=
    overlayLayer_decompose vars_def lp local_values T1 E1
  have h2 : overlayLayer vars_def local_values lp (T1, pre_errors ++ E1)
      = ((overlayLayer vars_def local_values lp (T1, [])).1,
         (pre_errors ++ E1) ++ (overlayLayer vars_def local_values lp (T1, [])).2) :=
    overlayLayer_decompose vars_def lp local_values T1 (pre_errors ++ E1)
  rw [h1, h2]
  unfold merge_overlay_errors
  rw [hT, h3]
  simp [List.append_assoc]

/-- C8: compile's result status is `PASS` exactly when zero errors were
accumulated across all steps (the SSOT mode gate, contract parsing, layer
loading, the two canonicalizations, secret-table loading, the overlay type
checks) and zero missing entries were accumulated (secret resolution and
required-ness); otherwise it is `FAIL`.  The generated env file and the
redacted effective-context document are written only when the status is
`PASS`, so on `FAIL` no write of either occurs, while the report is always
produced. -/
theorem cmd_compile_status_spec
    (mode : Option String) (vars_def : List (String × VarDef)) (contract_errors : List String)
    (raw_values raw_local : List (String × PVal)) (v_err lv_err : List String)
    (secrets_ref : List (String × PVal)) (s_err : List String)
    (root env : String) (resolve : String → PVal → Except String String) (no_write : Bool) :
    ((cmd_compile_pure mode vars_def contract_errors raw_values raw_local v_err lv_err
        secrets_ref s_err root env resolve no_write).merge.status = "PASS" ∨
     (cmd_compile_pure mode vars_def contract_errors raw_values raw_local v_err lv_err
        secrets_ref s_err root env resolve no_write).merge.status = "FAIL") ∧
    ((cmd_compile_pure mode vars_def contract_errors raw_values raw_local v_err lv_err
        secrets_ref s_err root env resolve no_write).merge.status = "PASS" ↔
      (mode = some "repo-env-contract" ∧ contract_errors = [] ∧ v_err = [] ∧ lv_err = [] ∧
       (canonicalize_values_for_env vars_def raw_values env
         (root ++ "/env/values/" ++ env ++ ".yaml")).errors = [] ∧
       (canonicalize_values_for_env vars_def raw_local env
         (root ++ "/env/values/" ++ env ++ ".local.yaml")).errors = [] ∧
       s_err = [] ∧
       merge_overlay_errors vars_def env
         (canonicalize_values_for_env vars_def raw_values env
           (root ++ "/env/values/" ++ env ++ ".yaml")).out
         (canonicalize_values_for_env vars_def raw_local env
           (root ++ "/env/values/" ++ env ++ ".local.yaml")).out
         (root ++ "/env/values/" ++ env ++ ".yaml")
         (root ++ "/env/values/" ++ env ++ ".local.yaml") = [] ∧
       (cmd_compile_pure mode vars_def contract_errors raw_values raw_local v_err lv_err
         secrets_ref s_err root env resolve no_write).merge.missing = [])) ∧
    ((cmd_compile_pure mode vars_def contract_errors raw_values raw_local v_err lv_err
        secrets_ref s_err root env resolve no_write).merge.status ≠ "PASS" →
      WAction.envFile ∉ (cmd_compile_pure mode vars_def contract_errors raw_values raw_local
        v_err lv_err secrets_ref s_err root env resolve no_write).actions ∧
      WAction.ctxFile ∉ (cmd_compile_pure mode vars_def contract_errors raw_values raw_local
        v_err lv_err secrets_ref s_err root env resolve no_write).actions) ∧
    WAction.reportOut ∈ (cmd_compile_pure mode vars_def contract_errors raw_values raw_local
      v_err lv_err secrets_ref s_err root env resolve no_write).actions := by
  have hm : (cmd_compile_pure mode vars_def contract_errors raw_values raw_local v_err lv_err
      secrets_ref s_err root env resolve no_write).merge
      = merge_core vars_def env
        (canonicalize_values_for_env vars_def raw_values env
          (root ++ "/env/values/" ++ env ++ ".yaml")).out
        (canonicalize_values_for_env vars_def raw_local env
          (root ++ "/env/values/" ++ env ++ ".local.yaml")).out
        (root ++ "/env/values/" ++ env ++ ".yaml")
        (root ++ "/env/values/" ++ env ++ ".local.yaml")
        secrets_ref resolve
        ((if mode = some "repo-env-contract" then [] else
          ["SSOT mode gate failed: docs/project/env-ssot.json must set mode=repo-env-contract"])
          ++ contract_errors ++ v_err ++ lv_err
          ++ (canonicalize_values_for_env vars_def raw_values env
              (root ++ "/env/values/" ++ env ++ ".yaml")).errors
          ++ (canonicalize_values_for_env vars_def raw_local env
              (root ++ "/env/values/" ++ env ++ ".local.yaml")).errors
          ++ s_err) := rfl
  have ha : (cmd_compile_pure mode vars_def contract_errors raw_values raw_local v_err lv_err
      secrets_ref s_err root env resolve no_write).actions
      = (if (cmd_compile_pure mode vars_def contract_errors raw_values raw_local v_err lv_err
            secrets_ref s_err root env resolve no_write).merge.status = "PASS" && !no_write
          then [WAction.envFile] else [])
        ++ (if (cmd_compile_pure mode vars_def contract_errors raw_values raw_local v_err lv_err
            secrets_ref s_err root env resolve no_write).merge.status = "PASS"
          then [WAction.ctxFile] else [])
        ++ [WAction.reportOut] := rfl
  refine ⟨?stat2, ?iff2, ?writes2, ?report2⟩
  case stat2 =>
    rw [hm, merge_core_status_def]
    by_cases hbe : (merge_core vars_def env
        (canonicalize_values_for_env vars_def raw_values env
          (root ++ "/env/values/" ++ env ++ ".yaml")).out
        (canonicalize_values_for_env vars_def raw_local env
          (root ++ "/env/values/" ++ env ++ ".local.yaml")).out
        (root ++ "/env/values/" ++ env ++ ".yaml")
        (root ++ "/env/values/" ++ env ++ ".local.yaml")
        secrets_ref resolve
        ((if mode = some "repo-env-contract" then [] else
          ["SSOT mode gate failed: docs/project/env-ssot.json must set mode=repo-env-contract"])
          ++ contract_errors ++ v_err ++ lv_err
          ++ (canonicalize_values_for_env vars_def raw_values env
              (root ++ "/env/values/" ++ env ++ ".yaml")).errors
          ++ (canonicalize_values_for_env vars_def raw_local env
              (root ++ "/env/values/" ++ env ++ ".local.yaml")).errors
          ++ s_err)).errors.isEmpty
    · left
      rw [if_pos hbe]
    · right
      rw [if_neg hbe]
  case iff2 =>
    rw [hm, merge_core_status_def]
    by_cases hbe : (merge_core vars_def env
        (canonicalize_values_for_env vars_def raw_values env
          (root ++ "/env/values/" ++ env ++ ".yaml")).out
        (canonicalize_values_for_env vars_def raw_local env
          (root ++ "/env/values/" ++ env ++ ".local.yaml")).out
        (root ++ "/env/values/" ++ env ++ ".yaml")
        (root ++ "/env/values/" ++ env ++ ".local.yaml")
        secrets_ref resolve
        ((if mode = some "repo-env-contract" then [] else
          ["SSOT mode gate failed: docs/project/env-ssot.json must set mode=repo-env-contract"])
          ++ contract_errors ++ v_err ++ lv_err
          ++ (canonicalize_values_for_env vars_def raw_values env
              (root ++ "/env/values/" ++ env ++ ".yaml")).errors
          ++ (canonicalize_values_for_env vars_def raw_local env
              (root ++ "/env/values/" ++ env ++ ".local.yaml")).errors
          ++ s_err)).errors.isEmpty
    · have he0 := List.isEmpty_iff.mp hbe
      rw [merge_core_errors_decompose] at he0
      rcases List.append_eq_nil.mp he0 with ⟨h12, hmi⟩
      rcases List.append_eq_nil.mp h12 with ⟨hpre, hmo⟩
      rcases List.append_eq_nil.mp hpre with ⟨hpre2, hs⟩
      rcases List.append_eq_nil.mp hpre2 with ⟨hpre3, hc2⟩
      rcases List.append_eq_nil.mp hpre3 with ⟨hpre4, hc1⟩
      rcases List.append_eq_nil.mp hpre4 with ⟨hpre5, hl⟩
      rcases List.append_eq_nil.mp hpre5 with ⟨hpre6, hv⟩
      rcases List.append_eq_nil.mp hpre6 with ⟨hg, hc⟩
      have hmode : mode = some "repo-env-contract" := by
        by_cases hm0 : mode = some "repo-env-contract"
        · exact hm0
        · rw [if_neg hm0] at hg
          exact absurd hg (by simp)
      rw [if_pos hbe]
      constructor
      · intro _
        exact ⟨hmode, hc, hv, hl, hc1, hc2, hs, hmo, hmi⟩
      · intro _
        rfl
    · rw [if_neg hbe]
      constructor
      · intro h0
        exact absurd h0 (by decide)
      · rintro ⟨hmode, hc, hv, hl, hc1, hc2, hs, hmo, hmi⟩
        exfalso
        apply hbe
        apply List.isEmpty_iff.mpr
        rw [merge_core_errors_decompose, hmi, hmo]
        rw [if_pos hmode, hc, hv, hl, hc1, hc2, hs]
        simp
  case writes2 =>
    intro hs
    rw [ha]
    rw [if_neg (by simp [hs]), if_neg hs]
    constructor
    · simp
    · simp
  case report2 =>
    rw [ha]
    simp

theorem cmd_compile_status_spec_witness :
    WAction.envFile ∉ (cmd_compile_pure Option.none [] [] [] [] [] [] [] [] "r" "dev"
      (fun _ _ => Except.error "") false).actions ∧
    WAction.ctxFile ∉ (cmd_compile_pure Option.none [] [] [] [] [] [] [] [] "r" "dev"
      (fun _ _ => Except.error "") false).actions ∧
    WAction.reportOut ∈ (cmd_compile_pure Option.none [] [] [] [] [] [] [] [] "r" "dev"
      (fun _ _ => Except.error "") false).actions := by
  have h := cmd_compile_status_spec Option.none [] [] [] [] [] [] [] [] "r" "dev"
    (fun _ _ => Except.error "") false
  have hs : (cmd_compile_pure Option.none [] [] [] [] [] [] [] [] "r" "dev"
      (fun _ _ => Except.error "") false).merge.status = "FAIL" := rfl
  have hne : (cmd_compile_pure Option.none [] [] [] [] [] [] [] [] "r" "dev"
      (fun _ _ => Except.error "") false).merge.status ≠ "PASS" := by
    rw [hs]
    decide
  obtain ⟨h1, h2⟩ := h.2.2.1 hne
  exact ⟨h1, h2, h.2.2.2⟩


/-! Lemmas about the contract parser. -/

theorem containsKey_eq_false_iff {α : Type} (d : List (String × α)) (k : String) :
    containsKey d k = false ↔ k ∉ d.map Prod.fst := by
  unfold containsKey
  cases hv : dget d k with
  | none =>
    simp only [hv, Option.isSome_none]
    constructor
    · intro _
      exact (dget_eq_none_iff d k).mp hv
    · intro _
      trivial
  | some v =>
    simp only [hv, Option.isSome_some]
    constructor
    · intro h
      exact absurd h (by simp)
    · intro h
      exact absurd ((dget_eq_none_iff d k).mpr h) (by simp [hv])

theorem parseEntryFields_some (name : String) (c : List (String × PVal)) (t : String)
    {r : Option VarDef × List String}
    (h : parseEntryFields name c t = some r) :
    ∃ vd, r.1 = some vd ∧
      vd.state = (if !LIFECYCLE_STATES.contains (stateCalc c) then "active" else stateCalc c) ∧
      (LIFECYCLE_STATES.contains (stateCalc c) = false →
        ("Variable " ++ name ++ ": invalid state " ++ pyStrRepr (stateCalc c) ++
          " (allowed: " ++ pyListRepr LIFECYCLE_STATES ++ ")") ∈ r.2) := by
  simp only [parseEntryFields] at h
  cases hdc : descResolve (pyGet c "description") with
  | none =>
    rw [hdc] at h
    exact absurd h (by simp)
  | some d =>
    rw [hdc] at h
    simp only [Option.map_some'] at h
    cases h
    refine ⟨_, rfl, rfl, ?_⟩
    intro hinv
    have hmem : ("Variable " ++ name ++ ": invalid state " ++ pyStrRepr (stateCalc c) ++
        " (allowed: " ++ pyListRepr LIFECYCLE_STATES ++ ")")
        ∈ (if !LIFECYCLE_STATES.contains (stateCalc c) then
            ["Variable " ++ name ++ ": invalid state " ++ pyStrRepr (stateCalc c) ++
             " (allowed: " ++ pyListRepr LIFECYCLE_STATES ++ ")"]
          else []) := by
      rw [if_pos (by rw [hinv]; rfl)]
      simp
    simp only [List.mem_append]
    tauto

theorem parseEntry_none_char (name : String) (cfg : PVal) {es : List String}
    (h : parseEntry name cfg = some (Option.none, es)) :
    entryStructOk name cfg = false ∧ es.length = 1 := by
  unfold parseEntry at h
  by_cases hn : envVarMatch name
  · rw [if_neg (by simp [hn])] at h
    cases cfg with
    | dict c =>
      cases hty : pyGet c "type" with
      | str t =>
        simp only [hty] at h
        by_cases hal : ALLOWED_TYPES.contains t
        · rw [if_pos hal] at h
          obtain ⟨vd, hvd, _, _⟩ := parseEntryFields_some name c t h
          exact absurd hvd (by simp)
        · rw [if_neg hal] at h
          refine ⟨by
            unfold entryStructOk
            simp only [hn, hty, Bool.true_and]
            cases hb : ALLOWED_TYPES.contains t
            · rfl
            · exact absurd hb hal, ?_⟩
          injection h with h2
          injection h2 with _ h3
          simp [← h3]
      | none =>
        simp only [hty] at h
        refine ⟨by simp [entryStructOk, hn, hty], ?_⟩
        injection h with h2
        injection h2 with _ h3
        simp [← h3]
      | bool b =>
        simp only [hty] at h
        refine ⟨by simp [entryStructOk, hn, hty], ?_⟩
        injection h with h2
        injection h2 with _ h3
        simp [← h3]
      | int n =>
        simp only [hty] at h
        refine ⟨by simp [entryStructOk, hn, hty], ?_⟩
        injection h with h2
        injection h2 with _ h3
        simp [← h3]
      | float q =>
        simp only [hty] at h
        refine ⟨by simp [entryStructOk, hn, hty], ?_⟩
        injection h with h2
        injection h2 with _ h3
        simp [← h3]
      | list xs =>
        simp only [hty] at h
        refine ⟨by simp [entryStructOk, hn, hty], ?_⟩
        injection h with h2
        injection h2 with _ h3
        simp [← h3]
      | dict kvs =>
        simp only [hty] at h
        refine ⟨by simp [entryStructOk, hn, hty], ?_⟩
        injection h with h2
        injection h2 with _ h3
        simp [← h3]
    | none =>
      refine ⟨by simp [entryStructOk, hn], ?_⟩
      injection h with h2
      injection h2 with _ h3
      simp [← h3]
    | bool b =>
      refine ⟨by simp [entryStructOk, hn], ?_⟩
      injection h with h2
      injection h2 with _ h3
      simp [← h3]
    | int n =>
      refine ⟨by simp [entryStructOk, hn], ?_⟩
      injection h with h2
      injection h2 with _ h3
      simp [← h3]
    | float q =>
      refine ⟨by simp [entryStructOk, hn], ?_⟩
      injection h with h2
      injection h2 with _ h3
      simp [← h3]
    | str s =>
      refine ⟨by simp [entryStructOk, hn], ?_⟩
      injection h with h2
      injection h2 with _ h3
      simp [← h3]
    | list xs =>
      refine ⟨by simp [entryStructOk, hn], ?_⟩
      injection h with h2
      injection h2 with _ h3
      simp [← h3]
  · rw [if_pos (by simp [hn])] at h
    refine ⟨by simp [entryStructOk, hn], ?_⟩
    injection h with h2
    injection h2 with _ h3
    simp [← h3]

theorem parseEntry_some_char (name : String) (cfg : PVal) {vd : VarDef} {es : List String}
    (h : parseEntry name cfg = some (some vd, es)) :
    entryStructOk name cfg = true := by
  unfold parseEntry at h
  by_cases hn : envVarMatch name
  · rw [if_neg (by simp [hn])] at h
    cases cfg with
    | dict c =>
      cases hty : pyGet c "type" with
      | str t =>
        simp only [hty] at h
        by_cases hal : ALLOWED_TYPES.contains t
        · unfold entryStructOk
          simp only [hn, hty, Bool.true_and]
          exact hal
        · rw [if_neg hal] at h
          injection h with h2
          injection h2 with h3 _
          exact absurd h3 (by simp)
      | none =>
        simp only [hty] at h
        injection h with h2
        injection h2 with h3 _
        exact absurd h3 (by simp)
      | bool b =>
        simp only [hty] at h
        injection h with h2
        injection h2 with h3 _
        exact absurd h3 (by simp)
      | int n =>
        simp only [hty] at h
        injection h with h2
        injection h2 with h3 _
        exact absurd h3 (by simp)
      | float q =>
        simp only [hty] at h
        injection h with h2
        injection h2 with h3 _
        exact absurd h3 (by simp)
      | list xs =>
        simp only [hty] at h
        injection h with h2
        injection h2 with h3 _
        exact absurd h3 (by simp)
      | dict kvs =>
        simp only [hty] at h
        injection h with h2
        injection h2 with h3 _
        exact absurd h3 (by simp)
    | none =>
      injection h with h2
      injection h2 with h3 _
      exact absurd h3 (by simp)
    | bool b =>
      injection h with h2
      injection h2 with h3 _
      exact absurd h3 (by simp)
    | int n =>
      injection h with h2
      injection h2 with h3 _
      exact absurd h3 (by simp)
    | float q =>
      injection h with h2
      injection h2 with h3 _
      exact absurd h3 (by simp)
    | str s =>
      injection h with h2
      injection h2 with h3 _
      exact absurd h3 (by simp)
    | list xs =>
      injection h with h2
      injection h2 with h3 _
      exact absurd h3 (by simp)
  · rw [if_pos (by simp [hn])] at h
    injection h with h2
    injection h2 with h3 _
    exact absurd h3 (by simp)

theorem parseEntry_structOk_eq (name : String) (c : List (String × PVal))
    (h : entryStructOk name (PVal.dict c) = true) :
    ∃ t, pyGet c "type" = PVal.str t ∧ ALLOWED_TYPES.contains t = true ∧
      parseEntry name (PVal.dict c) = parseEntryFields name c t := by
  unfold entryStructOk at h
  rw [Bool.and_eq_true] at h
  cases hty : pyGet c "type" with
  | str t =>
    simp only [hty] at h
    refine ⟨t, rfl, h.2, ?_⟩
    unfold parseEntry
    rw [if_neg (by simp [h.1])]
    simp only [hty]
    rw [if_pos h.2]
  | none => simp only [hty] at h; exact absurd h.2 (by simp)
  | bool b => simp only [hty] at h; exact absurd h.2 (by simp)
  | int n => simp only [hty] at h; exact absurd h.2 (by simp)
  | float q => simp only [hty] at h; exact absurd h.2 (by simp)
  | list xs => simp only [hty] at h; exact absurd h.2 (by simp)
  | dict kvs => simp only [hty] at h; exact absurd h.2 (by simp)

theorem length_filter_bool_compl {α : Type} (f : α → Bool) (l : List α) :
    (l.filter f).length + (l.filter (fun x => !f x)).length = l.length := by
  induction l with
  | nil => rfl
  | cons x rest ih =>
    cases hf : f x <;> simp [List.filter_cons, hf] <;> omega

theorem parseFold_errors_mono (l : List (String × PVal)) (vs : List (String × VarDef))
    (es : List String) {r : List (String × VarDef) × List String}
    (h : parseFold l vs es = some r) : ∃ t, r.2 = es ++ t := by
  induction l generalizing vs es with
  | nil =>
    simp only [parseFold] at h
    cases h
    exact ⟨[], by simp⟩
  | cons p rest ih =>
    simp only [parseFold] at h
    cases hpe : parseEntry p.1 p.2 with
    | none => simp [hpe] at h
    | some q =>
      obtain ⟨o, es1⟩ := q
      cases o with
      | none =>
        simp only [hpe] at h
        obtain ⟨t, ht⟩ := ih _ _ h
        exact ⟨es1 ++ t, by rw [ht, List.append_assoc]⟩
      | some vd =>
        simp only [hpe] at h
        obtain ⟨t, ht⟩ := ih _ _ h
        exact ⟨es1 ++ t, by rw [ht, List.append_assoc]⟩

theorem parseFold_preserve (l : List (String × PVal)) (vs : List (String × VarDef))
    (es : List String) {r : List (String × VarDef) × List String} (k : String)
    (hk : k ∉ l.map Prod.fst)
    (h : parseFold l vs es = some r) : dget r.1 k = dget vs k := by
  induction l generalizing vs es with
  | nil => simp only [parseFold] at h; cases h; rfl
  | cons p rest ih =>
    simp only [List.map_cons, List.mem_cons, not_or] at hk
    simp only [parseFold] at h
    cases hpe : parseEntry p.1 p.2 with
    | none => simp [hpe] at h
    | some q =>
      obtain ⟨o, es1⟩ := q
      cases o with
      | none =>
        simp only [hpe] at h
        exact ih _ _ hk.2 h
      | some vd =>
        simp only [hpe] at h
        rw [ih _ _ hk.2 h]
        exact dget_dset_ne vs vd hk.1

theorem parseFold_process (l : List (String × PVal)) (vs : List (String × VarDef))
    (es : List String) {r : List (String × VarDef) × List String}
    (hnd : (l.map Prod.fst).Nodup)
    (hdisj : ∀ p ∈ l, dget vs p.1 = Option.none)
    (h : parseFold l vs es = some r) :
    ∀ p ∈ l, ∃ q, parseEntry p.1 p.2 = some q ∧
      dget r.1 p.1 = q.1 ∧ ∀ m ∈ q.2, m ∈ r.2 := by
  induction l generalizing vs es with
  | nil => intro p hp; cases hp
  | cons p0 rest ih =>
    intro p hp
    simp only [List.map_cons, List.nodup_cons] at hnd
    simp only [parseFold] at h
    cases hpe : parseEntry p0.1 p0.2 with
    | none => simp [hpe] at h
    | some q0 =>
      obtain ⟨o, es1⟩ := q0
      rcases List.mem_cons.mp hp with hp0 | hprest
      · subst hp0
        cases o with
        | none =>
          simp only [hpe] at h
          refine ⟨(Option.none, es1), hpe, ?_, ?_⟩
          · rw [parseFold_preserve rest vs (es ++ es1) p.1 hnd.1 h]
            exact hdisj p (List.mem_cons_self p rest)
          · intro m hm
            obtain ⟨t, ht⟩ := parseFold_errors_mono rest vs (es ++ es1) h
            rw [ht, List.append_assoc]
            exact List.mem_append_right es (List.mem_append_left t hm)
        | some vd =>
          simp only [hpe] at h
          refine ⟨(some vd, es1), hpe, ?_, ?_⟩
          · rw [parseFold_preserve rest (dset vs p.1 vd) (es ++ es1) p.1 hnd.1 h]
            exact dget_dset_self vs p.1 vd
          · intro m hm
            obtain ⟨t, ht⟩ := parseFold_errors_mono rest (dset vs p.1 vd) (es ++ es1) h
            rw [ht, List.append_assoc]
            exact List.mem_append_right es (List.mem_append_left t hm)
      · have hne : ∀ p1 ∈ rest, p1.1 ≠ p0.1 := by
          intro p1 hp1 he
          exact hnd.1 (he ▸ List.mem_map_of_mem Prod.fst hp1)
        cases o with
        | none =>
          simp only [hpe] at h
          exact ih _ _ hnd.2 (fun p1 hp1 => hdisj p1 (List.mem_cons_of_mem p0 hp1)) h p hprest
        | some vd =>
          simp only [hpe] at h
          refine ih _ _ hnd.2 ?_ h p hprest
          intro p1 hp1
          rw [dget_dset_ne vs vd (hne p1 hp1)]
          exact hdisj p1 (List.mem_cons_of_mem p0 hp1)

theorem parseFold_counts (l : List (String × PVal)) (vs : List (String × VarDef))
    (es : List String) {r : List (String × VarDef) × List String}
    (hnd : (l.map Prod.fst).Nodup)
    (hdisj : ∀ p ∈ l, dget vs p.1 = Option.none)
    (h : parseFold l vs es = some r) :
    r.1.length = vs.length + (l.filter (fun p => entryStructOk p.1 p.2)).length ∧
    es.length + (l.filter (fun p => !entryStructOk p.1 p.2)).length ≤ r.2.length := by
  induction l generalizing vs es with
  | nil =>
    simp only [parseFold] at h
    cases h
    simp
  | cons p0 rest ih =>
    simp only [List.map_cons, List.nodup_cons] at hnd
    simp only [parseFold] at h
    cases hpe : parseEntry p0.1 p0.2 with
    | none => simp [hpe] at h
    | some q0 =>
      obtain ⟨o, es1⟩ := q0
      cases o with
      | none =>
        simp only [hpe] at h
        obtain ⟨hso, hlen1⟩ := parseEntry_none_char p0.1 p0.2 hpe
        obtain ⟨ih1, ih2⟩ := ih _ _ hnd.2
          (fun p1 hp1 => hdisj p1 (List.mem_cons_of_mem p0 hp1)) h
        constructor
        · rw [ih1]
          simp [List.filter_cons, hso]
        · have hlen2 : (es ++ es1).length = es.length + 1 := by
            rw [List.length_append, hlen1]
          rw [hlen2] at ih2
          simp only [List.filter_cons, hso, Bool.not_false, if_true, List.length_cons]
          omega
      | some vd =>
        simp only [hpe] at h
        have hso := parseEntry_some_char p0.1 p0.2 hpe
        have hck : containsKey vs p0.1 = false := by
          simp [containsKey, hdisj p0 (List.mem_cons_self p0 rest)]
        have hdisj2 : ∀ p1 ∈ rest, dget (dset vs p0.1 vd) p1.1 = Option.none := by
          intro p1 hp1
          have hne : p1.1 ≠ p0.1 := by
            intro he
            exact hnd.1 (he ▸ List.mem_map_of_mem Prod.fst hp1)
          rw [dget_dset_ne vs vd hne]
          exact hdisj p1 (List.mem_cons_of_mem p0 hp1)
        obtain ⟨ih1, ih2⟩ := ih _ _ hnd.2 hdisj2 h
        constructor
        · rw [ih1, length_dset_new vd hck]
          simp only [List.filter_cons, hso, if_true, List.length_cons]
          omega
        · have hlen2 : es.length ≤ (es ++ es1).length := by
            rw [List.length_append]; omega
          simp only [List.length_append] at ih2
          simp [List.filter_cons, hso]
          omega

/-- Raw contract used for the C3 counterexample and witness: a single
structurally valid entry (valid name, mapping, allowed type) whose missing
description is a field-level violation, so the entry is stored AND one
error is recorded for it. -/
def c3Raw : List (String × PVal) := [("A", PVal.dict [("type", PVal.str "string")])]

/-- C3 counterexample: on a one-entry contract whose entry has a field
error but passes the structural checks, `parse_contract` returns one spec
AND one error, so spec count + error count = 2 exceeds the entry count 1;
the claimed equality "specs + errors = input entries" fails. -/
theorem parse_contract_counts_counterexample :
    (parse_contract c3Raw).map (fun r => r.1.length + r.2.length) = some 2 ∧
    c3Raw.length = 1 := ⟨by decide, rfl⟩

/-- C3 (amended): for a raw `variables` mapping with pairwise distinct
names, when `parse_contract` succeeds it stores exactly one spec per
structurally valid entry (valid env-var name, mapping definition, allowed
type), and every input entry is covered by a spec or by at least one
error, so entry count ≤ spec count + error count; equality does not hold
in general because a stored entry can also record field errors. -/
theorem parse_contract_counts_spec (raw : List (String × PVal))
    {specs : List (String × VarDef)} {errs : List String}
    (hnd : (raw.map Prod.fst).Nodup)
    (h : parse_contract raw = some (specs, errs)) :
    specs.length = (raw.filter (fun p => entryStructOk p.1 p.2)).length ∧
    raw.length ≤ specs.length + errs.length := by
  unfold parse_contract at h
  cases hpf : parseFold raw [] [] with
  | none => simp [hpf] at h
  | some q =>
    obtain ⟨vars_out, errors⟩ := q
    simp only [hpf] at h
    injection h with h2
    injection h2 with h3 h4
    subst h3
    subst h4
    obtain ⟨hc1, hc2⟩ := parseFold_counts raw [] [] hnd (fun p _ => rfl) hpf
    simp only [List.length_nil, Nat.zero_add] at hc1 hc2
    refine ⟨hc1, ?_⟩
    have htot := length_filter_bool_compl (fun p => entryStructOk p.1 p.2) raw
    simp only [List.length_append]
    omega

/-- The spec stored by `parse_contract` for the C3 witness entry. -/
def c3Vd : VarDef :=
  { name := "A", type := "string", required := false, secret := false,
    secret_ref := Option.none, default := PVal.none, enum := Option.none,
    scopes := Option.none, description := "", state := "active",
    deprecate_after := Option.none, replacement := Option.none,
    rename_from := Option.none }

/-- C3 witness: the amended count law instantiated on the one-entry
contract `c3Raw`. -/
theorem parse_contract_counts_spec_witness :
    (c3Raw.map Prod.fst).Nodup ∧
    parse_contract c3Raw = some ([("A", c3Vd)],
      ["Variable A: description must be a non-empty single line"]) ∧
    ([("A", c3Vd)] : List (String × VarDef)).length =
      (c3Raw.filter (fun p => entryStructOk p.1 p.2)).length ∧
    c3Raw.length ≤ ([("A", c3Vd)] : List (String × VarDef)).length +
      (["Variable A: description must be a non-empty single line"] : List String).length := by
  have hnd : (c3Raw.map Prod.fst).Nodup := by decide
  have hp : parse_contract c3Raw = some ([("A", c3Vd)],
      ["Variable A: description must be a non-empty single line"]) := by rfl
  obtain ⟨h1, h2⟩ := parse_contract_counts_spec c3Raw hnd hp
  exact ⟨hnd, hp, h1, h2⟩

/-- C10: for a raw `variables` mapping with pairwise distinct names, when
`parse_contract` succeeds an entry is stored in the spec output iff it
passes the three structural checks (valid env-var name, mapping
definition, allowed type); and a structurally valid entry whose lifecycle
state is not one of active/deprecated/removed is still stored, with its
state coerced to "active" and the invalid-state error recorded. -/
theorem parse_contract_store_spec (raw : List (String × PVal))
    {specs : List (String × VarDef)} {errs : List String}
    (hnd : (raw.map Prod.fst).Nodup)
    (h : parse_contract raw = some (specs, errs)) :
    ∀ p ∈ raw,
      ((dget specs p.1).isSome = true ↔ entryStructOk p.1 p.2 = true) ∧
      (∀ c, p.2 = PVal.dict c → entryStructOk p.1 p.2 = true →
        LIFECYCLE_STATES.contains (stateCalc c) = false →
        ∃ vd, dget specs p.1 = some vd ∧ vd.state = "active" ∧
          ("Variable " ++ p.1 ++ ": invalid state " ++ pyStrRepr (stateCalc c) ++
            " (allowed: " ++ pyListRepr LIFECYCLE_STATES ++ ")") ∈ errs) := by
  unfold parse_contract at h
  cases hpf : parseFold raw [] [] with
  | none => simp [hpf] at h
  | some q =>
    obtain ⟨vars_out, errors⟩ := q
    simp only [hpf] at h
    injection h with h2
    injection h2 with h3 h4
    subst h3
    subst h4
    intro p hp
    obtain ⟨qe, hqe, hdg, hmem⟩ := parseFold_process raw [] [] hnd (fun p _ => rfl) hpf p hp
    obtain ⟨o, qes⟩ := qe
    constructor
    · constructor
      · intro hs
        rw [hdg] at hs
        cases ho : o with
        | none => rw [ho] at hs; simp at hs
        | some vd =>
          rw [ho] at hqe
          exact parseEntry_some_char p.1 p.2 hqe
      · intro hso
        cases ho : o with
        | none =>
          rw [ho] at hqe
          have hbad := (parseEntry_none_char p.1 p.2 hqe).1
          rw [hso] at hbad
          cases hbad
        | some vd =>
          rw [hdg, ho]
          rfl
    · intro c hc hso hbad
      rw [hc] at hso
      obtain ⟨t, hty, hal, heq⟩ := parseEntry_structOk_eq p.1 c hso
      rw [hc, heq] at hqe
      obtain ⟨vd, hvd, hstate, herr⟩ := parseEntryFields_some p.1 c t hqe
      refine ⟨vd, ?_, ?_, ?_⟩
      · rw [hdg]
        exact hvd
      · rw [hstate, hbad]
        rfl
      · have hm := hmem _ (herr hbad)
        exact List.mem_append_left _ (List.mem_append_left _ hm)

/-- The `A` entry of the C10 witness contract: structurally valid, with an
invalid lifecycle state. -/
def c10CfgA : List (String × PVal) :=
  [("type", PVal.str "string"), ("description", PVal.str "a var"),
   ("state", PVal.str "weird")]

/-- Raw contract for the C10 witness: one structurally valid entry with an
invalid state, and one entry with an invalid env-var name. -/
def c10Raw : List (String × PVal) :=
  [("A", PVal.dict c10CfgA), ("2BAD", PVal.str "x")]

/-- The spec stored by `parse_contract` for the C10 witness entry `A`:
state coerced to "active". -/
def c10Vd : VarDef :=
  { name := "A", type := "string", required := false, secret := false,
    secret_ref := Option.none, default := PVal.none, enum := Option.none,
    scopes := Option.none, description := "a var", state := "active",
    deprecate_after := Option.none, replacement := Option.none,
    rename_from := Option.none }

/-- The errors recorded by `parse_contract` on the C10 witness contract. -/
def c10Errs : List String :=
  ["Variable A: invalid state " ++ pyStrRepr "weird" ++ " (allowed: " ++
     pyListRepr LIFECYCLE_STATES ++ ")",
   "Invalid env var name in contract: " ++ pyStrRepr "2BAD"]

/-- C10 witness: on `c10Raw`, the invalid-state entry `A` is stored with
state "active" plus a recorded error, while the invalid-name entry `2BAD`
is dropped. -/
theorem parse_contract_store_spec_witness :
    parse_contract c10Raw = some ([("A", c10Vd)], c10Errs) ∧
    (dget [("A", c10Vd)] "A").isSome = true ∧
    entryStructOk "2BAD" (PVal.str "x") = false ∧
    (dget [("A", c10Vd)] "2BAD").isSome = false ∧
    c10Vd.state = "active" ∧
    ("Variable " ++ "A" ++ ": invalid state " ++ pyStrRepr (stateCalc c10CfgA) ++
      " (allowed: " ++ pyListRepr LIFECYCLE_STATES ++ ")") ∈ c10Errs := by
  have hp : parse_contract c10Raw = some ([("A", c10Vd)], c10Errs) := by rfl
  have hnd : (c10Raw.map Prod.fst).Nodup := by decide
  have H := parse_contract_store_spec c10Raw hnd hp
  have HA := H ("A", PVal.dict c10CfgA) (by simp [c10Raw])
  have HB := H ("2BAD", PVal.str "x") (by simp [c10Raw])
  obtain ⟨vd, hdg, hst, hmem⟩ := HA.2 c10CfgA rfl (by decide) (by decide)
  refine ⟨hp, ?_, by decide, ?_, by rfl, hmem⟩
  · rw [hdg]
    rfl
  · cases hb : (dget [("A", c10Vd)] "2BAD").isSome
    · rfl
    · exact absurd (HB.1.mp hb) (by decide)

end EnvLocalCtl
